import Mathlib

/-!
Verification of ar-parallel-solver: topology, exchange channel and tiled workspace.

A shallow embedding of `src/parallel.cpp` (classes `ClusterManager`, `Comms`,
`Workspace`, and `main`) and of `FileDumper::loop` of `src/shared.h`, together
with the properties proved about them.

Conventions of the embedding

* C++ `int`, `long` and `Coord` (`long long`) values are modelled by `Int`; the
  quotient and remainder of C++ are `Int.tdiv` and `Int.tmod` (truncation).
* `NumType` (`double`) values are only stored and copied by the modelled code,
  never computed on, so the embedding is generic in the value type `V`.
* A C array `T[4]` indexed by the enumeration `Neighbour` is an `Arr4 T`.
* A heap buffer is a `List V`; a null pointer is `none`.  An access outside a
  buffer or through a null pointer is undefined behaviour in C++ and is
  modelled by an explicit `Fault`.
* `new NumType[n]` does not initialise its cells: the initial contents of every
  buffer are a parameter (`Junk`).
* `size_t` arithmetic is arithmetic on `Nat` modulo `2 ^ 64`.
* What the transport delivers into the receive buffers during `swap` is a
  parameter (`net`); a loop that may not end takes a bound on its rounds.
-/

namespace ArParallel

/-! ## Definitions: topology (`ClusterManager`) -/

/-- Sentinel rank `const int N_INVALID = -1`: no neighbour in that direction. -/
def N_INVALID : Int := -1

/-- The enumeration `Neighbour` with `LEFT = 0, TOP = 1, RIGHT = 2, BOTTOM = 3`. -/
inductive Neighbour where
  | LEFT
  | TOP
  | RIGHT
  | BOTTOM
deriving DecidableEq, Repr

/-- The integer value of an enumerator. -/
def Neighbour.toInt : Neighbour → Int
  | .LEFT => 0
  | .TOP => 1
  | .RIGHT => 2
  | .BOTTOM => 3

/-- The directions in the order of `for(int i = 0; i < 4; i++)`. -/
def Neighbour.all : List Neighbour := [.LEFT, .TOP, .RIGHT, .BOTTOM]

/-- The direction facing the other way (LEFT with RIGHT, TOP with BOTTOM). -/
def Neighbour.opposite : Neighbour → Neighbour
  | .LEFT => .RIGHT
  | .TOP => .BOTTOM
  | .RIGHT => .LEFT
  | .BOTTOM => .TOP

/-- A four-element C array indexed by `Neighbour`. -/
structure Arr4 (α : Type) where
  left : α
  top : α
  right : α
  bottom : α
deriving DecidableEq, Repr

/-- Array read `a[d]`. -/
def Arr4.get {α : Type} (a : Arr4 α) : Neighbour → α
  | .LEFT => a.left
  | .TOP => a.top
  | .RIGHT => a.right
  | .BOTTOM => a.bottom

/-- Array write `a[d] = v`. -/
def Arr4.set {α : Type} (a : Arr4 α) (d : Neighbour) (v : α) : Arr4 α :=
  match d with
  | .LEFT => { a with left := v }
  | .TOP => { a with top := v }
  | .RIGHT => { a with right := v }
  | .BOTTOM => { a with bottom := v }

/-- Largest `r ≤ k` with `r * r ≤ n` (downward search from `k`). -/
def sqrtSearch (n : Nat) : Nat → Nat
  | 0 => 0
  | k + 1 => if (k + 1) * (k + 1) ≤ n then k + 1 else sqrtSearch n k

/-- The value of `static_cast<long>(std::sqrt(nodeCount))` for a non-negative
`int`: the square root truncated towards zero (for every 32-bit `int` the
correctly rounded `double` square root truncates to the integer square root). -/
def truncSqrt (n : Nat) : Nat := sqrtSearch n n

/-- How a call can fail.  `runtimeError` is a thrown `std::runtime_error` with
its message; the others stand for behaviour that C++ or MPI leaves undefined or
erroneous: an access outside a buffer, an access through a null pointer, an
array allocation of negative length, and a message longer than the posted
receive. -/
inductive Fault where
  | runtimeError (what : String)
  | outOfBounds
  | nullPointer
  | badAlloc
  | truncated
deriving DecidableEq, Repr

/-- One line written through `err_log()`, which tags every line with the rank
of the writing process (`"[" << nodeId << "] "`). -/
inductive Diag where
  /-- Line "Number of nodes must be power of some integer (got N )". -/
  | badNodeCount (tag : Int) (nodeCount : Int)
  /-- Line "Neighbours:  LEFT: l TOP: t RIGHT: r BOTTOM: b". -/
  | neighbours (tag : Int) (left top right bottom : Int)
  /-- Line "Cluster initialized successfully. I'm (row,column)". -/
  | initialized (tag : Int) (row column : Int)
deriving DecidableEq, Repr

/-- The private fields of `ClusterManager`. -/
structure ClusterManager where
  nodeCount : Int
  sideLen : Int
  nodeId : Int
  row : Int
  column : Int
  neighbours : Arr4 Int
deriving DecidableEq, Repr

/-- What running a constructor leaves behind: the lines written to the error
stream, and either the constructed object or the message of the exception. -/
structure Outcome (α : Type) where
  log : List Diag
  result : Except Fault α

/-- The assignments of `ClusterManager::initNeighbours`, as a function of the
fields it reads. -/
def initNeighbours (nodeId sideLen row column : Int) : Arr4 Int :=
  { top := if row = 0 then N_INVALID else nodeId - sideLen
    bottom := if row = sideLen - 1 then N_INVALID else nodeId + sideLen
    left := if column = 0 then N_INVALID else nodeId - 1
    right := if column = sideLen - 1 then N_INVALID else nodeId + 1 }

/-- The constructor `ClusterManager::ClusterManager`, for the rank `nodeId` and
the process count `nodeCount` reported by MPI. -/
def ClusterManager.construct (nodeId nodeCount : Int) : Outcome ClusterManager :=
  let sqr : Int := (truncSqrt nodeCount.toNat : Nat)
  if sqr * sqr ≠ nodeCount then
    { log := if nodeId = 0 then [Diag.badNodeCount nodeId nodeCount] else []
      result := .error (.runtimeError "incorrect node count!") }
  else
    let sideLen := sqr
    let row := nodeId.tdiv sideLen
    let column := nodeId.tmod sideLen
    let neighbours := initNeighbours nodeId sideLen row column
    { log := [Diag.neighbours nodeId neighbours.left neighbours.top
                neighbours.right neighbours.bottom,
              Diag.initialized nodeId row column]
      result := .ok { nodeCount := nodeCount, sideLen := sideLen, nodeId := nodeId,
                      row := row, column := column, neighbours := neighbours } }

/-- Method `getNeighbours`. -/
def ClusterManager.getNeighbours (cm : ClusterManager) : Arr4 Int := cm.neighbours

/-- The neighbour array of the `ClusterManager` constructed for `nodeId` among
`nodeCount` processes, if the constructor returns. -/
def neighboursOf (nodeId nodeCount : Int) : Option (Arr4 Int) :=
  match (ClusterManager.construct nodeId nodeCount).result with
  | .ok cm => some cm.getNeighbours
  | .error _ => none

/-- Slot value `t` is a rank in `0..p-1` whose `ClusterManager` sits at grid
position `(row, column)`. -/
def HoldsRankAt (p t row column : Int) : Prop :=
  0 ≤ t ∧ t < p ∧
    ∃ cm, (ClusterManager.construct t p).result = .ok cm ∧
      cm.row = row ∧ cm.column = column

/-- Number of slots of `a` holding a valid rank. -/
def validCount (a : Arr4 Int) : Nat :=
  (Neighbour.all.filter (fun d => a.get d ≠ N_INVALID)).length


/-! ## Definitions: memory -/

/-- Read `buf[i]`. -/
def readAt {α : Type} (buf : List α) (i : Int) : Except Fault α :=
  if 0 ≤ i then
    match buf[i.toNat]? with
    | some v => .ok v
    | none => .error .outOfBounds
  else .error .outOfBounds

/-- Write `buf[i] = v`. -/
def writeAt {α : Type} (buf : List α) (i : Int) (v : α) : Except Fault (List α) :=
  if 0 ≤ i ∧ i < buf.length then .ok (buf.set i.toNat v) else .error .outOfBounds

/-- Allocation `new T[n]`; cell `k` starts with the arbitrary value `junk k`. -/
def newArray {α : Type} (n : Int) (junk : Nat → α) : Except Fault (List α) :=
  if 0 ≤ n then .ok ((List.range n.toNat).map junk) else .error .badAlloc

/-- The values taken by the loop variable of
`for(Int i = 0; i < n; i++)`, in order. -/
def loopIndices (n : Int) : List Int :=
  (List.range n.toNat).map (fun (k : Nat) => (k : Int))

/-! ## Definitions: exchange channel (`Comms`) -/

/-- Constant `RQ_COUNT`. -/
def RQ_COUNT : Int := 8

/-- An `MPI_Request` slot.  A send remembers the buffer, count, target and tag
it was posted with; a receive (posted with `MPI_ANY_SOURCE`, `MPI_ANY_TAG`)
remembers its count and the buffer it fills, named by the direction whose
`outerEdge` buffer it is. -/
inductive Request (V : Type) where
  | null
  | isend (sendBuffer : List V) (count : Int) (target : Int) (tag : Int)
  | irecv (receiveBuffer : Neighbour) (count : Int)
deriving DecidableEq, Repr

/-- The fields of `Comms` (`idxArray` is scratch space of `MPI_Waitsome`). -/
structure Comms (V : Type) where
  innerLength : Int
  rq : List (Request V)
  nextId : Int
deriving DecidableEq, Repr

/-- Method `Comms::reset`. -/
def Comms.reset {V : Type} (c : Comms V) : Comms V :=
  { c with rq := List.replicate RQ_COUNT.toNat Request.null, nextId := 0 }

/-- The constructor `Comms::Comms`. -/
def Comms.construct {V : Type} (innerLength : Int) : Comms V :=
  Comms.reset { innerLength := innerLength, rq := [], nextId := 0 }

/-- Method `Comms::exchange`; a null buffer handed to MPI is a fault. -/
def Comms.exchange {V : Type} (c : Comms V) (targetId : Int)
    (sendBuffer : Option (List V)) (receiveBuffer : Option Neighbour) :
    Except Fault (Comms V) :=
  match sendBuffer, receiveBuffer with
  | some sb, some rb => do
    let rq ← writeAt c.rq c.nextId (Request.isend sb c.innerLength targetId 1)
    let rq ← writeAt rq (c.nextId + 1) (Request.irecv rb c.innerLength)
    pure { c with rq := rq, nextId := c.nextId + 2 }
  | _, _ => .error .nullPointer

/-- Method `Comms::wait`, as seen from the channel: it returns once every
posted request has completed, and MPI sets a completed request to
`MPI_REQUEST_NULL`. -/
def Comms.wait {V : Type} (c : Comms V) : Comms V :=
  { c with rq := c.rq.map (fun _ => Request.null) }

/-- Completion of a receive of at most `count` values into `buf`: the message
overwrites the start of the buffer; a longer message is an MPI error. -/
def recvInto {V : Type} (buf : List V) (count : Int) (msg : List V) :
    Except Fault (List V) :=
  if (msg.length : Int) ≤ count then
    if msg.length ≤ buf.length then .ok (msg ++ buf.drop msg.length)
    else .error .outOfBounds
  else .error .truncated

/-- The effect of `Comms::wait` on the receive buffers: every posted receive
completes with the message the transport matched to it, `net d` for the receive
that fills `outerEdge[d]`. -/
def deliver {V : Type} (net : Neighbour → List V) :
    List (Request V) → Arr4 (Option (List V)) → Except Fault (Arr4 (Option (List V)))
  | [], outer => .ok outer
  | Request.irecv d count :: rest, outer =>
    match outer.get d with
    | none => .error .nullPointer
    | some buf => do
      let buf ← recvInto buf count (net d)
      deliver net rest (outer.set d (some buf))
  | _ :: rest, outer => deliver net rest outer

/-! ## Definitions: tiled workspace (`Workspace`) -/

/-- The fields of `Workspace`; the references `cm` and `comm` are held by
value, `neigh` is the array `cm.getNeighbours()` points to. -/
structure Workspace (V : Type) where
  cm : ClusterManager
  comm : Comms V
  neigh : Arr4 Int
  innerLength : Int
  actualSize : Int
  borderCond : V
  innerEdge : Arr4 (Option (List V))
  outerEdge : Arr4 (Option (List V))
  front : List V
  back : List V
deriving DecidableEq, Repr

/-- Initial contents of the cells of each buffer `allocateBuffers` allocates. -/
structure Junk (V : Type) where
  front : Nat → V
  back : Nat → V
  innerEdge : Neighbour → Nat → V
  outerEdge : Neighbour → Nat → V

/-- One round of the loop of `allocateBuffers`, for one of the two arrays. -/
def allocEdge {V : Type} (neigh : Arr4 Int) (innerLength : Int)
    (junk : Neighbour → Nat → V) (i : Neighbour) : Except Fault (Option (List V)) :=
  if neigh.get i ≠ N_INVALID then
    (newArray innerLength (junk i)).map some
  else .ok none

/-- All four rounds of the loop of `allocateBuffers`, for one of the arrays. -/
def allocEdges {V : Type} (neigh : Arr4 Int) (innerLength : Int)
    (junk : Neighbour → Nat → V) : Except Fault (Arr4 (Option (List V))) := do
  let l ← allocEdge neigh innerLength junk .LEFT
  let t ← allocEdge neigh innerLength junk .TOP
  let r ← allocEdge neigh innerLength junk .RIGHT
  let b ← allocEdge neigh innerLength junk .BOTTOM
  pure { left := l, top := t, right := r, bottom := b }

/-- The constructor `Workspace::Workspace`, with `allocateBuffers` inlined. -/
def Workspace.construct {V : Type} (size : Int) (borderCond : V)
    (cm : ClusterManager) (comm : Comms V) (junk : Junk V) :
    Except Fault (Workspace V) := do
  let innerLength := size
  let actualSize := size * size
  let neigh := cm.getNeighbours
  let front ← newArray actualSize junk.front
  let back ← newArray actualSize junk.back
  let innerEdge ← allocEdges neigh innerLength junk.innerEdge
  let outerEdge ← allocEdges neigh innerLength junk.outerEdge
  pure { cm := cm, comm := comm, neigh := neigh, innerLength := innerLength,
         actualSize := actualSize, borderCond := borderCond,
         innerEdge := innerEdge, outerEdge := outerEdge,
         front := front, back := back }

/-- Method `set_elf`: `front[x*innerLength+y] = value`. -/
def Workspace.set_elf {V : Type} (ws : Workspace V) (x y : Int) (value : V) :
    Except Fault (Workspace V) := do
  let front ← writeAt ws.front (x * ws.innerLength + y) value
  pure { ws with front := front }

/-- Read `outerEdge[d][i]`. -/
def Workspace.outerAt {V : Type} (ws : Workspace V) (d : Neighbour) (i : Int) :
    Except Fault V :=
  match ws.outerEdge.get d with
  | none => .error .nullPointer
  | some buf => readAt buf i

/-- Method `get_elb`. -/
def Workspace.get_elb {V : Type} (ws : Workspace V) (x y : Int) : Except Fault V :=
  if x = -1 then
    if y = -1 then
      .error (.runtimeError "corner access!")
    else if y = ws.innerLength + 1 then
      .error (.runtimeError "corner access!")
    else
      if ws.neigh.get .LEFT ≠ N_INVALID then ws.outerAt .LEFT y
      else .ok ws.borderCond
  else if x = ws.innerLength + 1 then
    if y = -1 then
      .error (.runtimeError "corner access!")
    else if y = ws.innerLength + 1 then
      .error (.runtimeError "corner access!")
    else
      if ws.neigh.get .RIGHT ≠ N_INVALID then ws.outerAt .RIGHT y
      else .ok ws.borderCond
  else
    if y = -1 then
      if ws.neigh.get .BOTTOM ≠ N_INVALID then ws.outerAt .BOTTOM x
      else .ok ws.borderCond
    else if y = ws.innerLength + 1 then
      if ws.neigh.get .TOP ≠ N_INVALID then ws.outerAt .TOP x
      else .ok ws.borderCond
    else
      readAt ws.back (x * ws.innerLength + y)

/-- Method `getLength`. -/
def Workspace.getLength {V : Type} (ws : Workspace V) : Int := ws.innerLength

/-- Method `elAddress`, as the offset from `base`. -/
def Workspace.elAddress {V : Type} (ws : Workspace V) (x y : Int) : Int :=
  ws.innerLength * x + y

/-- Method `swapBuffers`. -/
def Workspace.swapBuffers {V : Type} (ws : Workspace V) : Workspace V :=
  let tmp := ws.front
  { ws with front := ws.back, back := tmp }

/-- The body of the loop of the `LOOP` pattern, over the remaining values of
`i`: `dst[i] = base[addr i]`. -/
def copyLoop {V : Type} (base : List V) (addr : Int → Int) :
    List Int → Option (List V) → Except Fault (Option (List V))
  | [], dst => .ok dst
  | _ :: _, none => .error .nullPointer
  | i :: rest, some buf => do
    let v ← readAt base (addr i)
    let buf ← writeAt buf i v
    copyLoop base addr rest (some buf)

/-- The pattern `LOOP(EDGE, X, Y, BUFF)` of `copyInnerEdgesToBuffers`; `X` and
`Y` are expressions in the loop variable `i`. -/
def Workspace.LOOP {V : Type} (ws : Workspace V) (EDGE : Neighbour)
    (X Y : Int → Int) (BUFF : List V) : Except Fault (Workspace V) :=
  if ws.neigh.get EDGE ≠ N_INVALID then do
    let dst ← copyLoop BUFF (fun i => ws.elAddress (X i) (Y i))
      (loopIndices ws.innerLength) (ws.innerEdge.get EDGE)
    pure { ws with innerEdge := ws.innerEdge.set EDGE dst }
  else .ok ws

/-- Method `copyInnerEdgesToBuffers`. -/
def Workspace.copyInnerEdgesToBuffers {V : Type} (ws : Workspace V) :
    Except Fault (Workspace V) := do
  let ws ← ws.LOOP .TOP (fun i => i) (fun _ => ws.innerLength - 1) ws.front
  let ws ← ws.LOOP .BOTTOM (fun i => i) (fun _ => 0) ws.front
  let ws ← ws.LOOP .LEFT (fun _ => 0) (fun i => i) ws.front
  ws.LOOP .RIGHT (fun _ => ws.innerLength - 1) (fun i => i) ws.front

/-- The loop `for(int i = 0; i < 4; i++)` of `swap`, over the remaining
directions. -/
def exchangeAll {V : Type} (ws : Workspace V) :
    List Neighbour → Comms V → Except Fault (Comms V)
  | [], c => .ok c
  | i :: rest, c =>
    let iThNeigh := ws.neigh.get i
    if iThNeigh ≠ N_INVALID then do
      let c ← c.exchange iThNeigh (ws.innerEdge.get i) ((ws.outerEdge.get i).map (fun _ => i))
      exchangeAll ws rest c
    else exchangeAll ws rest c

/-- Method `swap`.  `net d` is the message the transport matches with the
receive posted for `outerEdge[d]`. -/
def Workspace.swap {V : Type} (ws : Workspace V) (net : Neighbour → List V) :
    Except Fault (Workspace V) := do
  let ws ← ws.copyInnerEdgesToBuffers
  let comm ← exchangeAll ws Neighbour.all ws.comm.reset
  let outerEdge ← deliver net comm.rq ws.outerEdge
  let ws := { ws with comm := comm.wait, outerEdge := outerEdge }
  pure ws.swapBuffers

/-- The fields of `Config` read by the core. -/
structure Config where
  N : Int := 40
  timeSteps : Nat := 400
  outputEnabled : Bool := false

/-- Function `main` after `parse_cli`: the three constructors in order; `zero`
is the literal `0.0`.  An exception of the first constructor leaves `main`. -/
def main {V : Type} (conf : Config) (nodeId nodeCount : Int) (zero : V)
    (junk : Junk V) : Outcome (Workspace V) :=
  let made := ClusterManager.construct nodeId nodeCount
  match made.result with
  | .error e => { log := made.log, result := .error e }
  | .ok clusterManager =>
    let comm : Comms V := Comms.construct conf.N
    { log := made.log
      result := Workspace.construct conf.N zero clusterManager comm junk }

/-! ## Definitions: vocabulary of the properties -/

/-- The coordinate at which `get_elb` consults direction `d`, at position `k`
along the edge: `x = -1` for LEFT, `x = innerLength+1` for RIGHT,
`y = -1` for BOTTOM, `y = innerLength+1` for TOP. -/
def codeVirtualCoord (innerLength : Int) (d : Neighbour) (k : Int) : Int × Int :=
  match d with
  | .LEFT => (-1, k)
  | .RIGHT => (innerLength + 1, k)
  | .BOTTOM => (k, -1)
  | .TOP => (k, innerLength + 1)

/-- The virtual coordinate of direction `d` under the documented indexing
"from 1 (first element) to size (last element)": coordinate `0` on the low side
and `innerLength+1` on the high side; LEFT and BOTTOM are the low sides. -/
def docVirtualCoord (innerLength : Int) (d : Neighbour) (k : Int) : Int × Int :=
  match d with
  | .LEFT => (0, k)
  | .RIGHT => (innerLength + 1, k)
  | .BOTTOM => (k, 0)
  | .TOP => (k, innerLength + 1)

/-- The cell of the tile, in the indexing of the buffers (`0..innerLength-1`),
that lies on the edge facing `d` at position `k` along the edge. -/
def edgeCell (innerLength : Int) (d : Neighbour) (k : Int) : Int × Int :=
  match d with
  | .LEFT => (0, k)
  | .RIGHT => (innerLength - 1, k)
  | .BOTTOM => (k, 0)
  | .TOP => (k, innerLength - 1)

/-- The buffers of a workspace have the sizes `allocateBuffers` gives them, and
its channel was constructed for the same edge length (as in `main`). -/
structure Workspace.Sized {V : Type} (ws : Workspace V) : Prop where
  comm_len : ws.comm.innerLength = ws.innerLength
  front_len : (ws.front.length : Int) = ws.innerLength * ws.innerLength
  back_len : (ws.back.length : Int) = ws.innerLength * ws.innerLength
  inner : ∀ d, ws.neigh.get d ≠ N_INVALID →
    ∃ buf, ws.innerEdge.get d = some buf ∧ (buf.length : Int) = ws.innerLength
  outer : ∀ d, ws.neigh.get d ≠ N_INVALID →
    ∃ buf, ws.outerEdge.get d = some buf ∧ (buf.length : Int) = ws.innerLength

/-! ## Definitions: example states -/

/-- Uninitialised memory that happens to hold 7 in every cell. -/
def sevens : Junk Int :=
  { front := fun _ => 7, back := fun _ => 7, innerEdge := fun _ _ => 7,
    outerEdge := fun _ _ => 7 }

/-- Uninitialised memory with distinguishable tile cells: `front` holds
1, 2, 3, ... and `back` holds 10, 11, 12, ... -/
def counting : Junk Int :=
  { front := fun k => (k : Int) + 1, back := fun k => 10 + (k : Int),
    innerEdge := fun _ _ => 7, outerEdge := fun _ _ => 7 }

/-- The workspace `main` constructs in a run of one process with `N = 2`,
boundary constant 0 and memory `sevens`. -/
def soloTile : Workspace Int :=
  { cm := { nodeCount := 1, sideLen := 1, nodeId := 0, row := 0, column := 0,
            neighbours := { left := -1, top := -1, right := -1, bottom := -1 } }
    comm := Comms.construct 2
    neigh := { left := -1, top := -1, right := -1, bottom := -1 }
    innerLength := 2
    actualSize := 4
    borderCond := 0
    innerEdge := { left := none, top := none, right := none, bottom := none }
    outerEdge := { left := none, top := none, right := none, bottom := none }
    front := [7, 7, 7, 7]
    back := [7, 7, 7, 7] }

/-- The workspace `main` constructs in a run of one process with `N = 1`. -/
def unitTile : Workspace Int :=
  { cm := { nodeCount := 1, sideLen := 1, nodeId := 0, row := 0, column := 0,
            neighbours := { left := -1, top := -1, right := -1, bottom := -1 } }
    comm := Comms.construct 1
    neigh := { left := -1, top := -1, right := -1, bottom := -1 }
    innerLength := 1
    actualSize := 1
    borderCond := 0
    innerEdge := { left := none, top := none, right := none, bottom := none }
    outerEdge := { left := none, top := none, right := none, bottom := none }
    front := [7]
    back := [7] }

/-- The workspace `main` constructs on rank 0 of four processes with `N = 2`
and memory `counting`: neighbours to the RIGHT (rank 1) and BOTTOM (rank 2). -/
def tileA : Workspace Int :=
  { cm := { nodeCount := 4, sideLen := 2, nodeId := 0, row := 0, column := 0,
            neighbours := { left := -1, top := -1, right := 1, bottom := 2 } }
    comm := Comms.construct 2
    neigh := { left := -1, top := -1, right := 1, bottom := 2 }
    innerLength := 2
    actualSize := 4
    borderCond := 0
    innerEdge := { left := none, top := none, right := some [7, 7], bottom := some [7, 7] }
    outerEdge := { left := none, top := none, right := some [7, 7], bottom := some [7, 7] }
    front := [1, 2, 3, 4]
    back := [10, 11, 12, 13] }

/-- The workspace `main` constructs on rank 1 of the same run: neighbours to
the LEFT (rank 0) and BOTTOM (rank 3). -/
def tileB0 : Workspace Int :=
  { cm := { nodeCount := 4, sideLen := 2, nodeId := 1, row := 0, column := 1,
            neighbours := { left := 0, top := -1, right := -1, bottom := 3 } }
    comm := Comms.construct 2
    neigh := { left := 0, top := -1, right := -1, bottom := 3 }
    innerLength := 2
    actualSize := 4
    borderCond := 0
    innerEdge := { left := some [7, 7], top := none, right := none, bottom := some [7, 7] }
    outerEdge := { left := some [7, 7], top := none, right := none, bottom := some [7, 7] }
    front := [1, 2, 3, 4]
    back := [10, 11, 12, 13] }

/-- Rank 1 once the exchange has put the RIGHT snapshot of `tileA`, the values
3 and 4, into its `outerEdge[LEFT]`. -/
def tileB : Workspace Int :=
  { tileB0 with outerEdge := tileB0.outerEdge.set .LEFT (some [3, 4]) }

/-! ## Definitions: reachable states -/

/-- The length of an edge buffer; `none` for a null pointer. -/
def edgeLen {V : Type} (p : Option (List V)) : Option Int :=
  p.map (fun b => (b.length : Int))

/-- The states of a workspace: the one its constructor returns, and those
returned by `set_elf` and `swap` called on such a state. -/
inductive Workspace.Reachable {V : Type} : Workspace V → Prop where
  | construct (size : Int) (borderCond : V) (cm : ClusterManager) (comm : Comms V)
      (junk : Junk V) (ws : Workspace V) :
      Workspace.construct size borderCond cm comm junk = .ok ws → Reachable ws
  | set_elf (ws ws1 : Workspace V) (x y : Int) (v : V) :
      Reachable ws → ws.set_elf x y v = .ok ws1 → Reachable ws1
  | swap (ws ws1 : Workspace V) (net : Neighbour → List V) :
      Reachable ws → ws.swap net = .ok ws1 → Reachable ws1

/-- Both edge buffers of every direction are allocated with length `innerLength`
where there is a neighbour and are null where there is none. -/
def Workspace.EdgesMatchNeighbours {V : Type} (ws : Workspace V) : Prop :=
  ∀ d, edgeLen (ws.innerEdge.get d) =
        (if ws.neigh.get d ≠ N_INVALID then some ws.innerLength else none) ∧
      edgeLen (ws.outerEdge.get d) =
        (if ws.neigh.get d ≠ N_INVALID then some ws.innerLength else none)

/-! ## Definitions: `FileDumper::loop` (`shared.h`) -/

/-- Conversion of a `Coord` (`long long`) to `size_t` (64 bits, unsigned). -/
def toSizeT (c : Int) : Nat := (c % 2 ^ 64).toNat

/-- Conversion of a `size_t` to `Coord`. -/
def toCoord (i : Nat) : Int := if i < 2 ^ 63 then (i : Int) else (i : Int) - 2 ^ 64

/-- The `while` loop of `FileDumper::loop`, entered with `iShouldContinue` true
and the loop variable `i`; `calls` lists the arguments `f` has been called with
so far, and `fuel` bounds the number of rounds still allowed: the result is
`none` when the loop has not ended within them.  The comparison `i >= limit`
is made in `size_t`; `f` takes a `Coord`. -/
def loopFrom (limit step : Int) : Nat → Nat → List Int → Option (List Int)
  | 0, _, _ => none
  | fuel + 1, i, calls =>
    if toSizeT limit ≤ i then
      some (calls ++ [toCoord (toSizeT (limit - 1))])
    else
      loopFrom limit step fuel ((i + toSizeT step) % 2 ^ 64) (calls ++ [toCoord i])

/-- Method `FileDumper::loop`: the arguments of the calls of `f`, in order. -/
def FileDumper.loop (limit step : Int) (fuel : Nat) : Option (List Int) :=
  loopFrom limit step fuel 0 []

/-! ## Definitions: the requests of one `swap` -/

/-- The two requests one call `comm.exchange(neigh[i], innerEdge[i], outerEdge[i])`
posts: a send of `innerEdge[i]` to `neigh[i]` with tag 1 and a receive into
`outerEdge[i]`, both of `count` values. -/
def exchangePair {V : Type} (ws : Workspace V) (count : Int) (i : Neighbour) :
    List (Request V) :=
  [Request.isend ((ws.innerEdge.get i).getD []) count (ws.neigh.get i) 1,
   Request.irecv i count]

/-- The directions of `ds` that have a neighbour, in order. -/
def withNeighbour {V : Type} (ws : Workspace V) (ds : List Neighbour) : List Neighbour :=
  ds.filter (fun d => ws.neigh.get d ≠ N_INVALID)

/-! ## Definitions: one exchange among several processes -/

/-- The messages the sends of a request array hand to the transport: target
rank and the `count` values that are sent. -/
def sentBy {V : Type} : List (Request V) → List (Int × List V)
  | [] => []
  | Request.isend buf count target _ :: rest => (target, buf.take count.toNat) :: sentBy rest
  | _ :: rest => sentBy rest

/-- The receives of a request array, named by the buffer they fill, in the order
they were posted. -/
def postedReceives {V : Type} : List (Request V) → List Neighbour
  | [] => []
  | Request.irecv d _ :: rest => d :: postedReceives rest
  | _ :: rest => postedReceives rest

/-- The messages one `swap` of `ws` sends: the snapshot step and the loop of
`swap`, then the sends found in the request array. -/
def Workspace.outbox {V : Type} (ws : Workspace V) : Except Fault (List (Int × List V)) := do
  let ws ← ws.copyInnerEdgesToBuffers
  let comm ← exchangeAll ws Neighbour.all ws.comm.reset
  pure (sentBy comm.rq)

/-- The receives one `swap` of `ws` posts, in posting order. -/
def Workspace.receives {V : Type} (ws : Workspace V) : Except Fault (List Neighbour) := do
  let ws ← ws.copyInnerEdgesToBuffers
  let comm ← exchangeAll ws Neighbour.all ws.comm.reset
  pure (postedReceives comm.rq)

/-- Matching of receives that are all posted with `MPI_ANY_SOURCE` and
`MPI_ANY_TAG`: every arriving message matches every pending receive, so the
receives are satisfied in posting order by the messages in their order of
arrival.  The result is the message delivered into the buffer of each
direction. -/
def matchArrivals {V : Type} (posted : List Neighbour) (arrivals : List (List V)) :
    Neighbour → List V :=
  fun d => ((posted.zip arrivals).lookup d).getD []

/-- The cells of a tile of edge length `L`, in the indexing of the buffers. -/
def cells (L : Int) : List (Int × Int) :=
  (loopIndices L).flatMap (fun x => (loopIndices L).map (fun y => (x, y)))

/-- One `set_elf` with the value `v` for each of the listed cells. -/
def writeAll {V : Type} (v : V) : List (Int × Int) → Workspace V → Except Fault (Workspace V)
  | [], ws => .ok ws
  | (x, y) :: rest, ws => do
    let ws ← ws.set_elf x y v
    writeAll v rest ws

/-- Every cell of `front` is written with `v`. -/
def Workspace.fill {V : Type} (ws : Workspace V) (v : V) : Except Fault (Workspace V) :=
  writeAll v (cells ws.innerLength) ws

/-- The tile of rank `r` in the scenario of four processes with tile edge
length 2 and boundary constant `zero`, constructed by `main` on memory `junk r`
and then seeded with `one` in every cell. -/
def seededTile {V : Type} (zero one : V) (junk : Int → Junk V) (r : Int) :
    Except Fault (Workspace V) :=
  match (main { N := 2 } r 4 zero (junk r)).result with
  | .ok ws => ws.fill one
  | .error e => .error e

/-- The messages addressed to rank `r` in one `swap` of the four seeded tiles. -/
def sentTo {V : Type} (zero one : V) (junk : Int → Junk V) (r : Int) : List (List V) :=
  ([0, 1, 2, 3] : List Int).flatMap (fun s =>
    match seededTile zero one junk s >>= Workspace.outbox with
    | .ok msgs => (msgs.filter (fun m => m.1 = r)).map (fun m => m.2)
    | .error _ => [])

/-- Uninitialised memory with `front` holding 5, 6, 7, ... -/
def countingFromFive : Junk Int :=
  { front := fun k => (k : Int) + 5, back := fun k => 20 + (k : Int),
    innerEdge := fun _ _ => 7, outerEdge := fun _ _ => 7 }

/-- The workspace `main` constructs on rank 3 of four processes with `N = 2`
and memory `countingFromFive`: neighbours to the LEFT (rank 2) and TOP (rank 1). -/
def tileC : Workspace Int :=
  { cm := { nodeCount := 4, sideLen := 2, nodeId := 3, row := 1, column := 1,
            neighbours := { left := 2, top := 1, right := -1, bottom := -1 } }
    comm := Comms.construct 2
    neigh := { left := 2, top := 1, right := -1, bottom := -1 }
    innerLength := 2
    actualSize := 4
    borderCond := 0
    innerEdge := { left := some [7, 7], top := some [7, 7], right := none, bottom := none }
    outerEdge := { left := some [7, 7], top := some [7, 7], right := none, bottom := none }
    front := [5, 6, 7, 8]
    back := [20, 21, 22, 23] }

/-! ## Lemmas -/

theorem sqrtSearch_le (n k : Nat) : sqrtSearch n k ≤ k := by
  induction k with
  | zero => simp [sqrtSearch]
  | succ k ih =>
    unfold sqrtSearch
    split
    · exact le_rfl
    · exact Nat.le_succ_of_le ih

theorem sqrtSearch_sq_le (n k : Nat) : sqrtSearch n k * sqrtSearch n k ≤ n := by
  induction k with
  | zero => simp [sqrtSearch]
  | succ k ih =>
    unfold sqrtSearch
    split
    · assumption
    · exact ih

theorem sqrtSearch_max (n k r : Nat) (hr : r ≤ k) (hsq : r * r ≤ n) :
    r ≤ sqrtSearch n k := by
  induction k with
  | zero => simp at hr; simp [hr]
  | succ k ih =>
    unfold sqrtSearch
    split
    · exact hr
    · rename_i hk
      rcases Nat.lt_or_ge r (k + 1) with h | h
      · exact ih (Nat.lt_succ_iff.mp h)
      · have : r = k + 1 := le_antisymm hr h
        subst this
        exact absurd hsq hk

theorem truncSqrt_eq_sqrt (n : Nat) : truncSqrt n = Nat.sqrt n := by
  unfold truncSqrt
  apply le_antisymm
  · exact Nat.le_sqrt.mpr (sqrtSearch_sq_le n n)
  · exact sqrtSearch_max n n _ (Nat.sqrt_le_self n) (Nat.sqrt_le n)

theorem sqr_sq_iff (p : Int) (hp : 0 ≤ p) :
    ((truncSqrt p.toNat : Nat) : Int) * ((truncSqrt p.toNat : Nat) : Int) = p ↔
      ∃ k : Int, k * k = p := by
  constructor
  · intro h
    exact ⟨_, h⟩
  · rintro ⟨k, hk⟩
    have hn : p.toNat = k.natAbs * k.natAbs := by
      have : (p.toNat : Int) = ((k.natAbs * k.natAbs : Nat) : Int) := by
        rw [Int.toNat_of_nonneg hp, ← hk]
        push_cast
        exact (abs_mul_abs_self k).symm
      exact_mod_cast this
    rw [truncSqrt_eq_sqrt, hn, Nat.sqrt_eq, ← hk]
    exact Int.natAbs_mul_self

theorem truncSqrt_pos (p : Int) (hp : 1 ≤ p) : (1 : Int) ≤ (truncSqrt p.toNat : Nat) := by
  rw [truncSqrt_eq_sqrt]
  have : 0 < Nat.sqrt p.toNat := Nat.sqrt_pos.mpr (by omega)
  exact_mod_cast this

/-- On a perfect square the constructor returns, with the fields below. -/
theorem construct_ok (r p : Int) (hp : 1 ≤ p) (hsq : ∃ k : Int, k * k = p) :
    (ClusterManager.construct r p).result =
      .ok { nodeCount := p, sideLen := (Nat.sqrt p.toNat : Nat), nodeId := r,
            row := r.tdiv (Nat.sqrt p.toNat : Nat),
            column := r.tmod (Nat.sqrt p.toNat : Nat),
            neighbours := initNeighbours r (Nat.sqrt p.toNat : Nat)
              (r.tdiv (Nat.sqrt p.toNat : Nat)) (r.tmod (Nat.sqrt p.toNat : Nat)) } := by
  have h := (sqr_sq_iff p (by omega)).mpr hsq
  unfold ClusterManager.construct
  simp only [ne_eq, h, not_true_eq_false, if_false]
  rw [truncSqrt_eq_sqrt]

theorem side_sq (p : Int) (hp : 1 ≤ p) (hsq : ∃ k : Int, k * k = p) :
    ((Nat.sqrt p.toNat : Nat) : Int) * ((Nat.sqrt p.toNat : Nat) : Int) = p ∧
      (1 : Int) ≤ (Nat.sqrt p.toNat : Nat) := by
  have h := (sqr_sq_iff p (by omega)).mpr hsq
  have h1 := truncSqrt_pos p hp
  rw [truncSqrt_eq_sqrt] at h h1
  exact ⟨h, h1⟩

/-- Grid position of a rank below `s * s`. -/
theorem grid_pos (s r : Int) (hs : 1 ≤ s) (h0 : 0 ≤ r) (hr : r < s * s) :
    r.tdiv s = r / s ∧ r.tmod s = r % s ∧ 0 ≤ r / s ∧ r / s < s ∧
      0 ≤ r % s ∧ r % s < s ∧ s * (r / s) + r % s = r := by
  have hs0 : (0 : Int) ≤ s := by omega
  refine ⟨Int.tdiv_eq_ediv h0 hs0, Int.tmod_eq_emod h0 hs0, ?_, ?_, ?_, ?_, ?_⟩
  · exact Int.ediv_nonneg h0 hs0
  · exact Int.ediv_lt_of_lt_mul (by omega) hr
  · exact Int.emod_nonneg _ (by omega)
  · exact Int.emod_lt_of_pos _ (by omega)
  · exact Int.ediv_add_emod r s

/-- Quotient and remainder of `i * s + j` for a column `j` inside the grid. -/
theorem grid_of_pos (s i j : Int) (hj0 : 0 ≤ j) (hj : j < s) :
    (i * s + j) / s = i ∧ (i * s + j) % s = j := by
  have hs : s ≠ 0 := by omega
  constructor
  · rw [add_comm, Int.add_mul_ediv_right _ _ hs, Int.ediv_eq_zero_of_lt hj0 hj, zero_add]
  · rw [add_comm, Int.add_mul_emod_self, Int.emod_eq_of_lt hj0 hj]

theorem holdsRankAt_of (p : Int) (hp : 1 ≤ p) (hsq : ∃ k : Int, k * k = p)
    (i j t : Int) (hi0 : 0 ≤ i) (hi : i < (Nat.sqrt p.toNat : Nat)) (hj0 : 0 ≤ j)
    (hj : j < (Nat.sqrt p.toNat : Nat)) (ht : t = i * (Nat.sqrt p.toNat : Nat) + j) :
    HoldsRankAt p t i j := by
  obtain ⟨hss, hs1⟩ := side_sq p hp hsq
  have hs0 : (0 : Int) ≤ (Nat.sqrt p.toNat : Nat) := by omega
  have ht0 : 0 ≤ t := by
    have : 0 ≤ i * ((Nat.sqrt p.toNat : Nat) : Int) := mul_nonneg hi0 hs0
    omega
  have htp : t < p := by
    have h1 : i * ((Nat.sqrt p.toNat : Nat) : Int) ≤
        (((Nat.sqrt p.toNat : Nat) : Int) - 1) * ((Nat.sqrt p.toNat : Nat) : Int) :=
      mul_le_mul_of_nonneg_right (by omega) hs0
    have h2 : (((Nat.sqrt p.toNat : Nat) : Int) - 1) * ((Nat.sqrt p.toNat : Nat) : Int) =
        ((Nat.sqrt p.toNat : Nat) : Int) * ((Nat.sqrt p.toNat : Nat) : Int) -
          ((Nat.sqrt p.toNat : Nat) : Int) := by ring
    omega
  obtain ⟨hq, hm⟩ := grid_of_pos _ i j hj0 hj
  refine ⟨ht0, htp, _, construct_ok t p hp hsq, ?_, ?_⟩
  · show t.tdiv _ = i
    rw [Int.tdiv_eq_ediv ht0 hs0, ht]
    exact hq
  · show t.tmod _ = j
    rw [Int.tmod_eq_emod ht0 hs0, ht]
    exact hm

/-- C1: for a perfect-square process count `p ≥ 1` the constructor returns for
every rank with `sideLen` the integer square root of `p`, `row = rank / sideLen`
and `column = rank % sideLen` inside the grid, and every grid position
`(i, j)` is the position of exactly one rank in `0..p-1`. -/
theorem topology_bijection (p : Int) (hp : 1 ≤ p) (hsq : ∃ k : Int, k * k = p) :
    (∀ r : Int, 0 ≤ r → r < p →
      ∃ cm, (ClusterManager.construct r p).result = .ok cm ∧
        cm.sideLen = (Nat.sqrt p.toNat : Nat) ∧
        cm.row = r / cm.sideLen ∧ cm.column = r % cm.sideLen ∧
        0 ≤ cm.row ∧ cm.row < cm.sideLen ∧ 0 ≤ cm.column ∧ cm.column < cm.sideLen) ∧
    (∀ i j : Int, 0 ≤ i → i < (Nat.sqrt p.toNat : Nat) →
      0 ≤ j → j < (Nat.sqrt p.toNat : Nat) →
      ∃! r : Int, 0 ≤ r ∧ r < p ∧
        ∃ cm, (ClusterManager.construct r p).result = .ok cm ∧
          cm.row = i ∧ cm.column = j) := by
  obtain ⟨hss, hs1⟩ := side_sq p hp hsq
  constructor
  · intro r h0 hr
    obtain ⟨hd, hm, g1, g2, g3, g4, -⟩ :=
      grid_pos (Nat.sqrt p.toNat : Nat) r hs1 h0 (by rw [hss]; exact hr)
    refine ⟨_, construct_ok r p hp hsq, rfl, ?_, ?_, ?_, ?_, ?_, ?_⟩
    · exact hd
    · exact hm
    · show 0 ≤ r.tdiv _
      rw [hd]; exact g1
    · show r.tdiv _ < _
      rw [hd]; exact g2
    · show 0 ≤ r.tmod _
      rw [hm]; exact g3
    · show r.tmod _ < _
      rw [hm]; exact g4
  · intro i j hi0 hi hj0 hj
    refine ⟨i * (Nat.sqrt p.toNat : Nat) + j, holdsRankAt_of p hp hsq i j _ hi0 hi hj0 hj rfl, ?_⟩
    rintro r ⟨h0, hr, cm, hcm, hrow, hcol⟩
    obtain ⟨hd, hm, -, -, -, -, hsum⟩ :=
      grid_pos (Nat.sqrt p.toNat : Nat) r hs1 h0 (by rw [hss]; exact hr)
    rw [construct_ok r p hp hsq] at hcm
    cases hcm
    simp only at hrow hcol
    rw [hd] at hrow
    rw [hm] at hcol
    rw [← hsum, hrow, hcol]
    ring

/-- Instance of C1 at four processes: rank 3 sits at position (1, 1) of the
two by two grid. -/
theorem topology_bijection_witness :
    (1 : Int) ≤ 4 ∧ (∃ k : Int, k * k = 4) ∧
      ∃! r : Int, 0 ≤ r ∧ r < 4 ∧
        ∃ cm, (ClusterManager.construct r 4).result = .ok cm ∧
          cm.row = 1 ∧ cm.column = 1 :=
  have h2 : ((Nat.sqrt (4 : Int).toNat : Nat) : Int) = 2 := by
    have : Nat.sqrt (4 : Int).toNat = 2 := Nat.sqrt_eq 2
    rw [this]; rfl
  ⟨by decide, ⟨2, by decide⟩,
    (topology_bijection 4 (by decide) ⟨2, by decide⟩).2 1 1 (by decide)
      (by rw [h2]; decide) (by decide) (by rw [h2]; decide)⟩

/-- When the process count is not a perfect square the constructor throws,
having written no line but possibly the complaint about the count. -/
theorem construct_not_square (nodeId p : Int) (hp : 1 ≤ p)
    (hsq : ¬ ∃ k : Int, k * k = p) :
    ClusterManager.construct nodeId p =
      { log := if nodeId = 0 then [Diag.badNodeCount nodeId p] else []
        result := .error (.runtimeError "incorrect node count!") } := by
  have h : ¬ ((truncSqrt p.toNat : Nat) : Int) * ((truncSqrt p.toNat : Nat) : Int) = p :=
    fun h => hsq ((sqr_sq_iff p (by omega)).mp h)
  unfold ClusterManager.construct
  simp only [ne_eq, h, not_false_eq_true, if_true]

/-- C2: for every process count `p ≥ 1` and every rank, the constructor throws
"incorrect node count!" if and only if `p` is not a perfect square; when it
throws, `initNeighbours` has not run (no neighbour array exists and no
"Neighbours" line was written) and `main` ends with that exception before
`Comms` and `Workspace` are constructed, so no exchange can be issued. -/
theorem construct_fails_iff (p nodeId : Int) (hp : 1 ≤ p) :
    ((ClusterManager.construct nodeId p).result =
        .error (.runtimeError "incorrect node count!") ↔ ¬ ∃ k : Int, k * k = p) ∧
    ((¬ ∃ k : Int, k * k = p) →
      neighboursOf nodeId p = none ∧
      (∀ tag l t r b,
        Diag.neighbours tag l t r b ∉ (ClusterManager.construct nodeId p).log) ∧
      ∀ (V : Type) (conf : Config) (zero : V) (junk : Junk V),
        (main conf nodeId p zero junk).result =
          .error (.runtimeError "incorrect node count!")) := by
  constructor
  · constructor
    · intro h hsq
      rw [construct_ok nodeId p hp hsq] at h
      cases h
    · intro hsq
      rw [construct_not_square nodeId p hp hsq]
  · intro hsq
    refine ⟨?_, ?_, ?_⟩
    · unfold neighboursOf
      rw [construct_not_square nodeId p hp hsq]
    · intro tag l t r b
      rw [construct_not_square nodeId p hp hsq]
      by_cases h0 : nodeId = 0 <;> simp [h0]
    · intro V conf zero junk
      unfold main
      rw [construct_not_square nodeId p hp hsq]

/-- Instance of C2: with five processes the constructor of rank 3 throws. -/
theorem construct_fails_iff_witness :
    (1 : Int) ≤ 5 ∧
      ((ClusterManager.construct 3 5).result =
        .error (.runtimeError "incorrect node count!") ↔ ¬ ∃ k : Int, k * k = 5) :=
  ⟨by decide, (construct_fails_iff 5 3 (by decide)).1⟩

/-- C3: for a perfect-square process count `p` with side `s` and a rank `r` in
`0..p-1`, each neighbour slot is the sentinel exactly when the tile is on the
grid edge in that direction (TOP: row 0, BOTTOM: row `s-1`, LEFT: column 0,
RIGHT: column `s-1`), and otherwise it holds a rank in `0..p-1` placed at the
adjacent grid position (row-1, row+1, column-1, column+1, the other coordinate
unchanged). -/
theorem neighbours_edge_or_adjacent (p r : Int) (hp : 1 ≤ p)
    (hsq : ∃ k : Int, k * k = p) (h0 : 0 ≤ r) (hr : r < p) :
    ∃ cm, (ClusterManager.construct r p).result = .ok cm ∧
      (cm.getNeighbours.get .TOP = N_INVALID ↔ cm.row = 0) ∧
      (cm.row ≠ 0 →
        HoldsRankAt p (cm.getNeighbours.get .TOP) (cm.row - 1) cm.column) ∧
      (cm.getNeighbours.get .BOTTOM = N_INVALID ↔ cm.row = cm.sideLen - 1) ∧
      (cm.row ≠ cm.sideLen - 1 →
        HoldsRankAt p (cm.getNeighbours.get .BOTTOM) (cm.row + 1) cm.column) ∧
      (cm.getNeighbours.get .LEFT = N_INVALID ↔ cm.column = 0) ∧
      (cm.column ≠ 0 →
        HoldsRankAt p (cm.getNeighbours.get .LEFT) cm.row (cm.column - 1)) ∧
      (cm.getNeighbours.get .RIGHT = N_INVALID ↔ cm.column = cm.sideLen - 1) ∧
      (cm.column ≠ cm.sideLen - 1 →
        HoldsRankAt p (cm.getNeighbours.get .RIGHT) cm.row (cm.column + 1)) := by
  obtain ⟨hss, hs1⟩ := side_sq p hp hsq
  obtain ⟨hd, hm, g1, g2, g3, g4, hsum⟩ :=
    grid_pos (Nat.sqrt p.toNat : Nat) r hs1 h0 (by rw [hss]; exact hr)
  have hs0 : (0 : Int) ≤ (Nat.sqrt p.toNat : Nat) := by omega
  have hge : ((Nat.sqrt p.toNat : Nat) : Int) * (r / (Nat.sqrt p.toNat : Nat)) ≥ 0 :=
    mul_nonneg hs0 g1
  refine ⟨_, construct_ok r p hp hsq, ?_⟩
  simp only [ClusterManager.getNeighbours, initNeighbours, Arr4.get, N_INVALID, hd, hm]
  refine ⟨?_, ?_, ?_, ?_, ?_, ?_, ?_, ?_⟩
  · by_cases ha : r / ((Nat.sqrt p.toNat : Nat) : Int) = 0
    · simp [ha]
    · simp only [ha, if_false, iff_false]
      have h1 : 0 ≤ ((Nat.sqrt p.toNat : Nat) : Int) * (r / (Nat.sqrt p.toNat : Nat) - 1) :=
        mul_nonneg hs0 (by omega)
      have h2 : ((Nat.sqrt p.toNat : Nat) : Int) * (r / (Nat.sqrt p.toNat : Nat) - 1) =
          (Nat.sqrt p.toNat : Nat) * (r / (Nat.sqrt p.toNat : Nat)) -
            (Nat.sqrt p.toNat : Nat) := by ring
      omega
  · intro ha
    rw [if_neg ha]
    exact holdsRankAt_of p hp hsq _ _ _ (by omega) (by omega) g3 g4
      (by linear_combination (-1 : Int) * hsum)
  · by_cases ha : r / ((Nat.sqrt p.toNat : Nat) : Int) = (Nat.sqrt p.toNat : Nat) - 1
    · simp [ha]
    · simp only [ha, if_false, iff_false]
      omega
  · intro ha
    rw [if_neg ha]
    exact holdsRankAt_of p hp hsq _ _ _ (by omega) (by omega) g3 g4
      (by linear_combination (-1 : Int) * hsum)
  · by_cases hb : r % ((Nat.sqrt p.toNat : Nat) : Int) = 0
    · simp [hb]
    · simp only [hb, if_false, iff_false]
      omega
  · intro hb
    rw [if_neg hb]
    exact holdsRankAt_of p hp hsq _ _ _ g1 g2 (by omega) (by omega)
      (by linear_combination (-1 : Int) * hsum)
  · by_cases hb : r % ((Nat.sqrt p.toNat : Nat) : Int) = (Nat.sqrt p.toNat : Nat) - 1
    · simp [hb]
    · simp only [hb, if_false, iff_false]
      omega
  · intro hb
    rw [if_neg hb]
    exact holdsRankAt_of p hp hsq _ _ _ g1 g2 (by omega) (by omega)
      (by linear_combination (-1 : Int) * hsum)

/-- Instance of C3 at nine processes and the centre rank 4. -/
theorem neighbours_edge_or_adjacent_witness :
    (1 : Int) ≤ 9 ∧ (∃ k : Int, k * k = 9) ∧ (0 : Int) ≤ 4 ∧ (4 : Int) < 9 ∧
      ∃ cm, (ClusterManager.construct 4 9).result = .ok cm ∧
        (cm.getNeighbours.get .TOP = N_INVALID ↔ cm.row = 0) ∧
        (cm.row ≠ 0 →
          HoldsRankAt 9 (cm.getNeighbours.get .TOP) (cm.row - 1) cm.column) ∧
        (cm.getNeighbours.get .BOTTOM = N_INVALID ↔ cm.row = cm.sideLen - 1) ∧
        (cm.row ≠ cm.sideLen - 1 →
          HoldsRankAt 9 (cm.getNeighbours.get .BOTTOM) (cm.row + 1) cm.column) ∧
        (cm.getNeighbours.get .LEFT = N_INVALID ↔ cm.column = 0) ∧
        (cm.column ≠ 0 →
          HoldsRankAt 9 (cm.getNeighbours.get .LEFT) cm.row (cm.column - 1)) ∧
        (cm.getNeighbours.get .RIGHT = N_INVALID ↔ cm.column = cm.sideLen - 1) ∧
        (cm.column ≠ cm.sideLen - 1 →
          HoldsRankAt 9 (cm.getNeighbours.get .RIGHT) cm.row (cm.column + 1)) :=
  ⟨by decide, ⟨3, by decide⟩, by decide, by decide,
    neighbours_edge_or_adjacent 9 4 (by decide) ⟨3, by decide⟩ (by decide) (by decide)⟩

/-- C4: in the topology of 9 processes rank 0 has the sentinel in LEFT and TOP
and valid ranks in RIGHT and BOTTOM (two valid neighbours), rank 4 has four
valid neighbours, and each of the ranks 1, 3, 5 and 7 has exactly three. -/
theorem three_by_three_neighbours :
    neighboursOf 0 9 = some { left := N_INVALID, top := N_INVALID, right := 1, bottom := 3 } ∧
    (neighboursOf 0 9).map validCount = some 2 ∧
    (neighboursOf 4 9).map validCount = some 4 ∧
    (neighboursOf 1 9).map validCount = some 3 ∧
    (neighboursOf 3 9).map validCount = some 3 ∧
    (neighboursOf 5 9).map validCount = some 3 ∧
    (neighboursOf 7 9).map validCount = some 3 := by
  decide

/-! ## Lemmas: memory -/

theorem readAt_of_getElem? {α : Type} (buf : List α) (i : Int) (v : α) (hi : 0 ≤ i)
    (h : buf[i.toNat]? = some v) : readAt buf i = .ok v := by
  unfold readAt
  rw [if_pos hi, h]

theorem readAt_ok {α : Type} (buf : List α) (i : Int) (hi : 0 ≤ i)
    (h : i < buf.length) : ∃ v, readAt buf i = .ok v ∧ buf[i.toNat]? = some v := by
  have hlt : i.toNat < buf.length := by omega
  exact ⟨buf[i.toNat], readAt_of_getElem? buf i _ hi (List.getElem?_eq_getElem hlt),
    List.getElem?_eq_getElem hlt⟩

theorem writeAt_ok {α : Type} (buf : List α) (i : Int) (v : α) (hi : 0 ≤ i)
    (h : i < buf.length) : writeAt buf i v = .ok (buf.set i.toNat v) := by
  unfold writeAt
  rw [if_pos ⟨hi, h⟩]

/-- The cell index of a coordinate inside the tile lies inside the tile. -/
theorem cell_index_bounds (L x y : Int) (hx0 : 0 ≤ x) (hx : x < L) (hy0 : 0 ≤ y)
    (hy : y < L) : 0 ≤ x * L + y ∧ x * L + y < L * L := by
  have h1 : 0 ≤ x * L := mul_nonneg hx0 (by omega)
  have h2 : x * L ≤ (L - 1) * L := mul_le_mul_of_nonneg_right (by omega) (by omega)
  have h3 : (L - 1) * L = L * L - L := by ring
  constructor <;> omega

/-- A write inside the tile returns and replaces one cell of `front`. -/
theorem set_elf_in_tile {V : Type} (ws : Workspace V) (x y : Int) (v : V)
    (hfront : (ws.front.length : Int) = ws.innerLength * ws.innerLength)
    (hx0 : 0 ≤ x) (hx : x < ws.innerLength) (hy0 : 0 ≤ y) (hy : y < ws.innerLength) :
    ws.set_elf x y v =
      .ok { ws with front := ws.front.set (x * ws.innerLength + y).toNat v } := by
  obtain ⟨h0, h1⟩ := cell_index_bounds ws.innerLength x y hx0 hx hy0 hy
  unfold Workspace.set_elf
  rw [writeAt_ok _ _ _ h0 (by rw [hfront]; exact h1)]
  rfl

/-- C9: for a coordinate `(x, y)` inside the tile (`0 ≤ x, y < innerLength`, the
indexing of the buffers) `set_elf` returns, and in the workspace it returns
`get_elb` gives at every coordinate what it gave before the write; only
`front` has changed. -/
theorem write_invisible_to_read {V : Type} (ws : Workspace V) (x y : Int) (v : V)
    (hfront : (ws.front.length : Int) = ws.innerLength * ws.innerLength)
    (hx0 : 0 ≤ x) (hx : x < ws.innerLength) (hy0 : 0 ≤ y) (hy : y < ws.innerLength) :
    ∃ ws1, ws.set_elf x y v = .ok ws1 ∧
      (∀ x1 y1 : Int, ws1.get_elb x1 y1 = ws.get_elb x1 y1) ∧
      ws1 = { ws with front := ws.front.set (x * ws.innerLength + y).toNat v } := by
  refine ⟨_, set_elf_in_tile ws x y v hfront hx0 hx hy0 hy, ?_, rfl⟩
  intro x1 y1
  rfl

theorem copyLoop_spec {V : Type} (base : List V) (addr : Int → Int) :
    ∀ (is : List Int) (buf : List V),
      (∀ i ∈ is, 0 ≤ i ∧ i < buf.length ∧ 0 ≤ addr i ∧ addr i < base.length) →
      ∃ buf1, copyLoop base addr is (some buf) = .ok (some buf1) ∧
        buf1.length = buf.length ∧
        ∀ j : Nat, buf1[j]? =
          if (j : Int) ∈ is then base[(addr j).toNat]? else buf[j]?
  | [], buf, _ => ⟨buf, rfl, rfl, by simp⟩
  | i :: rest, buf, h => by
    obtain ⟨hi0, hi, ha0, ha⟩ := h i (List.mem_cons_self _ _)
    obtain ⟨v, hv, hget⟩ := readAt_ok base (addr i) ha0 ha
    obtain ⟨buf1, hrun, hlen, hcont⟩ :=
      copyLoop_spec base addr rest (buf.set i.toNat v) (by
        intro k hk
        obtain ⟨a, b, c, d⟩ := h k (List.mem_cons_of_mem _ hk)
        exact ⟨a, by simpa using b, c, d⟩)
    refine ⟨buf1, ?_, by simpa using hlen, ?_⟩
    · rw [copyLoop, hv]
      change (writeAt buf i v >>= _) = _
      rw [writeAt_ok buf i v hi0 hi]
      exact hrun
    · intro j
      rw [hcont j]
      by_cases hj : (j : Int) ∈ rest
      · simp [hj]
      · simp only [hj, if_false, List.mem_cons, or_false]
        by_cases hji : (j : Int) = i
        · have hij : i.toNat = j := by omega
          have hlt : i.toNat < buf.length := by omega
          rw [if_pos hji, List.getElem?_set, if_pos hij, if_pos hlt, hji]
          exact hget.symm
        · have hij : ¬ i.toNat = j := by omega
          rw [if_neg hji, List.getElem?_set, if_neg hij]

theorem Arr4.get_set {α : Type} (a : Arr4 α) (d e : Neighbour) (v : α) :
    (a.set d v).get e = if e = d then v else a.get e := by
  cases d <;> cases e <;> rfl

theorem Arr4.set_get_self {α : Type} (a : Arr4 α) (d : Neighbour) :
    a.set d (a.get d) = a := by
  cases d <;> rfl

theorem mem_loopIndices (n i : Int) : i ∈ loopIndices n ↔ 0 ≤ i ∧ i < n := by
  unfold loopIndices
  simp only [List.mem_map, List.mem_range]
  constructor
  · rintro ⟨k, hk, rfl⟩
    omega
  · rintro ⟨h0, h1⟩
    exact ⟨i.toNat, by omega, by omega⟩

theorem LOOP_spec {V : Type} (ws : Workspace V) (EDGE : Neighbour) (X Y : Int → Int)
    (BUFF : List V)
    (hin : ws.neigh.get EDGE ≠ N_INVALID →
      ∃ buf, ws.innerEdge.get EDGE = some buf ∧ (buf.length : Int) = ws.innerLength)
    (haddr : ∀ k : Int, 0 ≤ k → k < ws.innerLength →
      0 ≤ ws.elAddress (X k) (Y k) ∧ ws.elAddress (X k) (Y k) < BUFF.length) :
    ∃ dst, ws.LOOP EDGE X Y BUFF = .ok { ws with innerEdge := ws.innerEdge.set EDGE dst } ∧
      (ws.neigh.get EDGE ≠ N_INVALID →
        ∃ buf, dst = some buf ∧ (buf.length : Int) = ws.innerLength ∧
          ∀ k : Nat, (k : Int) < ws.innerLength →
            buf[k]? = BUFF[(ws.elAddress (X k) (Y k)).toNat]?) ∧
      (ws.neigh.get EDGE = N_INVALID → dst = ws.innerEdge.get EDGE) := by
  by_cases hn : ws.neigh.get EDGE = N_INVALID
  · refine ⟨ws.innerEdge.get EDGE, ?_, fun h => absurd hn h, fun _ => rfl⟩
    unfold Workspace.LOOP
    rw [if_neg (not_not.mpr hn), Arr4.set_get_self]
  · obtain ⟨buf, hbuf, hlen⟩ := hin hn
    obtain ⟨buf1, hrun, hlen1, hcont⟩ :=
      copyLoop_spec BUFF (fun i => ws.elAddress (X i) (Y i)) (loopIndices ws.innerLength) buf
        (by
          intro i hi
          obtain ⟨h0, h1⟩ := (mem_loopIndices _ _).mp hi
          obtain ⟨h2, h3⟩ := haddr i h0 h1
          exact ⟨h0, by omega, h2, h3⟩)
    refine ⟨some buf1, ?_, fun _ => ⟨buf1, rfl, by omega, ?_⟩, fun h => absurd h hn⟩
    · unfold Workspace.LOOP
      rw [if_pos hn, hbuf, hrun]
      rfl
    · intro k hk
      rw [hcont k, if_pos ((mem_loopIndices _ _).mpr ⟨by omega, hk⟩)]

theorem elAddress_bounds {V : Type} (ws : Workspace V) (x y : Int) (hx0 : 0 ≤ x)
    (hx : x < ws.innerLength) (hy0 : 0 ≤ y) (hy : y < ws.innerLength) :
    0 ≤ ws.elAddress x y ∧ ws.elAddress x y < ws.innerLength * ws.innerLength := by
  have h := cell_index_bounds ws.innerLength x y hx0 hx hy0 hy
  have e : ws.elAddress x y = x * ws.innerLength + y := by
    unfold Workspace.elAddress
    ring
  rw [e]
  exact h

/-- The snapshot step on a workspace with buffers of the allocated sizes: it
returns, changes `innerEdge` only, and leaves in `innerEdge[d]` of every
direction with a neighbour the `front` cells of the edge facing `d`. -/
theorem copyInnerEdges_spec {V : Type} (ws : Workspace V) (hS : ws.Sized) :
    ∃ ie, ws.copyInnerEdgesToBuffers = .ok { ws with innerEdge := ie } ∧
      ∀ d, (ws.neigh.get d ≠ N_INVALID →
          ∃ buf, ie.get d = some buf ∧ (buf.length : Int) = ws.innerLength ∧
            ∀ k : Nat, (k : Int) < ws.innerLength →
              buf[k]? = ws.front[(ws.elAddress (edgeCell ws.innerLength d k).1
                (edgeCell ws.innerLength d k).2).toNat]?) ∧
        (ws.neigh.get d = N_INVALID → ie.get d = ws.innerEdge.get d) := by
  have addr : ∀ x y : Int, 0 ≤ x → x < ws.innerLength → 0 ≤ y → y < ws.innerLength →
      0 ≤ ws.elAddress x y ∧ ws.elAddress x y < (ws.front.length : Int) := by
    intro x y hx0 hx hy0 hy
    rw [hS.front_len]
    exact elAddress_bounds ws x y hx0 hx hy0 hy
  obtain ⟨d1, h1, v1, n1⟩ := LOOP_spec ws .TOP (fun i => i) (fun _ => ws.innerLength - 1)
    ws.front (hS.inner .TOP)
    (fun k (h0 : 0 ≤ k) (hk : k < ws.innerLength) =>
      addr k (ws.innerLength - 1) h0 hk (by omega) (by omega))
  obtain ⟨d2, h2, v2, n2⟩ := LOOP_spec { ws with innerEdge := ws.innerEdge.set .TOP d1 }
    .BOTTOM (fun i => i) (fun _ => 0) ws.front (hS.inner .BOTTOM)
    (fun k (h0 : 0 ≤ k) (hk : k < ws.innerLength) => addr k 0 h0 hk (by omega) (by omega))
  obtain ⟨d3, h3, v3, n3⟩ := LOOP_spec
    { ws with innerEdge := (ws.innerEdge.set .TOP d1).set .BOTTOM d2 }
    .LEFT (fun _ => 0) (fun i => i) ws.front (hS.inner .LEFT)
    (fun k (h0 : 0 ≤ k) (hk : k < ws.innerLength) => addr 0 k (by omega) (by omega) h0 hk)
  obtain ⟨d4, h4, v4, n4⟩ := LOOP_spec
    { ws with innerEdge := ((ws.innerEdge.set .TOP d1).set .BOTTOM d2).set .LEFT d3 }
    .RIGHT (fun _ => ws.innerLength - 1) (fun i => i) ws.front (hS.inner .RIGHT)
    (fun k (h0 : 0 ≤ k) (hk : k < ws.innerLength) =>
      addr (ws.innerLength - 1) k (by omega) (by omega) h0 hk)
  refine ⟨(((ws.innerEdge.set .TOP d1).set .BOTTOM d2).set .LEFT d3).set .RIGHT d4, ?_, ?_⟩
  · unfold Workspace.copyInnerEdgesToBuffers
    rw [h1]
    change (Workspace.LOOP _ _ _ _ _ >>= _) = _
    rw [h2]
    change (Workspace.LOOP _ _ _ _ _ >>= _) = _
    rw [h3]
    exact h4
  · intro d
    cases d
    · exact ⟨v3, n3⟩
    · exact ⟨v1, n1⟩
    · exact ⟨v4, n4⟩
    · exact ⟨v2, n2⟩

/-- What `get_elb` does at the coordinate where it consults direction `d`. -/
theorem get_elb_virtual {V : Type} (B : Workspace V) (d : Neighbour) (k : Int)
    (h0 : 0 ≤ k) (hk : k < B.innerLength) :
    B.get_elb (codeVirtualCoord B.innerLength d k).1 (codeVirtualCoord B.innerLength d k).2 =
      if B.neigh.get d ≠ N_INVALID then B.outerAt d k else .ok B.borderCond := by
  have e1 : ¬ k = -1 := by omega
  have e2 : ¬ k = B.innerLength + 1 := by omega
  have e3 : ¬ B.innerLength + 1 = -1 := by omega
  cases d <;> simp [Workspace.get_elb, codeVirtualCoord, e1, e2, e3]

/-- The seam at the guards of `get_elb` (low side `-1`, high side
`innerLength+1`), which are not the documented virtual coordinates on the low
side: let `A` have a neighbour in direction `d` and let `B`, with the same
tile edge length, have one in the opposite direction; assume `B`'s
`outerEdge[opposite d]` is `A`'s `innerEdge[d]` as filled by
`copyInnerEdgesToBuffers`.  Then the snapshot step of `A` returns, and for every
slot `0 ≤ k < innerLength` it fills, `get_elb` of `B` at the coordinate where it
consults `opposite d` with along-edge coordinate `k` reads `outerEdge[opposite d]`
at the index `k`, which is inside the buffer, and returns the `front` cell of
`A`, at snapshot time, on the edge facing `d` with along-edge coordinate `k`. -/
theorem seam_consistency {V : Type} (A B : Workspace V) (d : Neighbour)
    (hA : A.Sized) (hAd : A.neigh.get d ≠ N_INVALID)
    (hBd : B.neigh.get d.opposite ≠ N_INVALID)
    (hL : B.innerLength = A.innerLength)
    (hex : ∀ A1, A.copyInnerEdgesToBuffers = .ok A1 →
      B.outerEdge.get d.opposite = A1.innerEdge.get d) :
    ∃ A1 buf, A.copyInnerEdgesToBuffers = .ok A1 ∧
      B.outerEdge.get d.opposite = some buf ∧
      ∀ k : Int, 0 ≤ k → k < A.innerLength →
        k < buf.length ∧
        B.get_elb (codeVirtualCoord B.innerLength d.opposite k).1
            (codeVirtualCoord B.innerLength d.opposite k).2 = readAt buf k ∧
        ∃ v, readAt buf k = .ok v ∧
          readAt A.front (A.elAddress (edgeCell A.innerLength d k).1
            (edgeCell A.innerLength d k).2) = .ok v := by
  obtain ⟨ie, hrun, hie⟩ := copyInnerEdges_spec A hA
  obtain ⟨buf, hbuf, hlen, hcont⟩ := (hie d).1 hAd
  have hout : B.outerEdge.get d.opposite = some buf := by
    rw [hex _ hrun]
    exact hbuf
  refine ⟨_, buf, hrun, hout, ?_⟩
  intro k h0 hk
  have hkb : k < (buf.length : Int) := by omega
  refine ⟨hkb, ?_, ?_⟩
  · rw [get_elb_virtual B d.opposite k h0 (by omega), if_pos hBd]
    unfold Workspace.outerAt
    rw [hout]
  · obtain ⟨v, hv, hget⟩ := readAt_ok buf k h0 hkb
    refine ⟨v, hv, ?_⟩
    have hc := hcont k.toNat (by omega)
    rw [Int.toNat_of_nonneg h0, hget] at hc
    have hpos : 0 ≤ A.elAddress (edgeCell A.innerLength d k).1
        (edgeCell A.innerLength d k).2 := by
      cases d
      · exact (elAddress_bounds A 0 k (by omega) (by omega) h0 hk).1
      · exact (elAddress_bounds A k (A.innerLength - 1) h0 hk (by omega) (by omega)).1
      · exact (elAddress_bounds A (A.innerLength - 1) k (by omega) (by omega) h0 hk).1
      · exact (elAddress_bounds A k 0 h0 hk (by omega) (by omega)).1
    exact readAt_of_getElem? _ _ _ hpos hc.symm

/-! ## Lemmas: exchange -/

theorem exchange_ok {V : Type} (c : Comms V) (targetId : Int) (sb : List V)
    (rb : Neighbour) (hlen : c.rq.length = 8) (h0 : 0 ≤ c.nextId) (h1 : c.nextId + 2 ≤ 8) :
    c.exchange targetId (some sb) (some rb) =
      .ok { c with
            rq := (c.rq.set c.nextId.toNat (Request.isend sb c.innerLength targetId 1)).set
              (c.nextId + 1).toNat (Request.irecv rb c.innerLength)
            nextId := c.nextId + 2 } := by
  unfold Comms.exchange
  simp only
  rw [writeAt_ok _ _ _ h0 (by omega)]
  change (writeAt _ _ _ >>= _) = _
  rw [writeAt_ok _ _ _ (by omega) (by simp only [List.length_set]; omega)]
  rfl

/-- The loop of `swap` over the directions `ds`, started with room for them in
the request array: it returns, posts two requests per valid neighbour and only
receives for directions with a neighbour. -/
theorem exchangeAll_spec {V : Type} (ws : Workspace V) (hS : ws.Sized) :
    ∀ (ds : List Neighbour) (c : Comms V), c.rq.length = 8 → 0 ≤ c.nextId →
      c.nextId + 2 * (ds.length : Int) ≤ 8 →
      ∃ c1, exchangeAll ws ds c = .ok c1 ∧ c1.rq.length = 8 ∧
        c1.innerLength = c.innerLength ∧
        c1.nextId = c.nextId +
          2 * ((ds.filter (fun d => ws.neigh.get d ≠ N_INVALID)).length : Int) ∧
        ∀ d count, Request.irecv d count ∈ c1.rq →
          Request.irecv d count ∈ c.rq ∨
            (ws.neigh.get d ≠ N_INVALID ∧ count = c.innerLength)
  | [], c, hlen, _, _ => ⟨c, rfl, hlen, rfl, by simp, fun _ _ h => Or.inl h⟩
  | i :: rest, c, hlen, h0, h1 => by
    have hr : (((i :: rest).length : Nat) : Int) = (rest.length : Int) + 1 := by simp
    by_cases hn : ws.neigh.get i = N_INVALID
    · obtain ⟨c1, hrun, hl1, hi1, hn1, hm1⟩ :=
        exchangeAll_spec ws hS rest c hlen h0 (by omega)
      refine ⟨c1, ?_, hl1, hi1, ?_, hm1⟩
      · rw [exchangeAll]
        simp only [ne_eq, hn, not_true_eq_false, if_false]
        exact hrun
      · rw [hn1]
        simp [List.filter_cons, hn]
    · obtain ⟨ib, hib, -⟩ := hS.inner i hn
      obtain ⟨ob, hob, -⟩ := hS.outer i hn
      have hex := exchange_ok c (ws.neigh.get i) ib i hlen h0 (by omega)
      obtain ⟨c1, hrun, hl1, hi1, hn1, hm1⟩ :=
        exchangeAll_spec ws hS rest
          { c with
            rq := (c.rq.set c.nextId.toNat
              (Request.isend ib c.innerLength (ws.neigh.get i) 1)).set
                (c.nextId + 1).toNat (Request.irecv i c.innerLength)
            nextId := c.nextId + 2 }
          (by simp only [List.length_set]; exact hlen)
          (by show 0 ≤ c.nextId + 2; omega)
          (by show c.nextId + 2 + 2 * (rest.length : Int) ≤ 8; omega)
      refine ⟨c1, ?_, hl1, hi1, ?_, ?_⟩
      · rw [exchangeAll]
        simp only [ne_eq, hn, not_false_eq_true, if_true, hib, hob, Option.map_some']
        rw [hex]
        exact hrun
      · rw [hn1]
        simp only [List.filter_cons, ne_eq, hn, not_false_eq_true, decide_True, if_true,
          List.length_cons]
        push_cast
        ring
      · intro d count hmem
        rcases hm1 d count hmem with h | h
        · rcases List.mem_or_eq_of_mem_set h with h2 | h2
          · rcases List.mem_or_eq_of_mem_set h2 with h3 | h3
            · exact Or.inl h3
            · cases h3
          · cases h2
            exact Or.inr ⟨hn, rfl⟩
        · exact Or.inr h

theorem recvInto_ok {V : Type} (buf msg : List V) (count : Int)
    (h1 : (msg.length : Int) ≤ count) (h2 : msg.length ≤ buf.length) :
    recvInto buf count msg = .ok (msg ++ buf.drop msg.length) ∧
      (msg ++ buf.drop msg.length).length = buf.length := by
  constructor
  · unfold recvInto
    rw [if_pos h1, if_pos h2]
  · simp only [List.length_append, List.length_drop]
    omega

/-- Completion of the posted receives, when each is for a direction with a
neighbour and every message fits: it returns, keeps every buffer of a direction
with a neighbour present with its length, and leaves the other slots alone. -/
theorem deliver_spec {V : Type} (net : Neighbour → List V) (L : Int)
    (valid : Neighbour → Prop) (hnet : ∀ d, ((net d).length : Int) ≤ L) :
    ∀ (rq : List (Request V)) (outer : Arr4 (Option (List V))),
      (∀ d count, Request.irecv d count ∈ rq → valid d ∧ count = L) →
      (∀ d, valid d → ∃ buf, outer.get d = some buf ∧ (buf.length : Int) = L) →
      ∃ outer1, deliver net rq outer = .ok outer1 ∧
        (∀ d, valid d → ∃ buf, outer1.get d = some buf ∧ (buf.length : Int) = L) ∧
        (∀ d, ¬ valid d → outer1.get d = outer.get d)
  | [], outer, _, hout => ⟨outer, rfl, hout, fun _ _ => rfl⟩
  | Request.null :: rest, outer, hrq, hout => by
    obtain ⟨o1, hrun, h1, h2⟩ := deliver_spec net L valid hnet rest outer
      (fun d count h => hrq d count (List.mem_cons_of_mem _ h)) hout
    refine ⟨o1, ?_, h1, h2⟩
    rw [deliver]
    · exact hrun
    · intro d count h
      cases h
  | Request.isend _ _ _ _ :: rest, outer, hrq, hout => by
    obtain ⟨o1, hrun, h1, h2⟩ := deliver_spec net L valid hnet rest outer
      (fun d count h => hrq d count (List.mem_cons_of_mem _ h)) hout
    refine ⟨o1, ?_, h1, h2⟩
    rw [deliver]
    · exact hrun
    · intro d count h
      cases h
  | Request.irecv e count :: rest, outer, hrq, hout => by
    obtain ⟨hv, hc⟩ := hrq e count (List.mem_cons_self _ _)
    obtain ⟨buf, hbuf, hlen⟩ := hout e hv
    have hm := hnet e
    obtain ⟨hr, hrl⟩ := recvInto_ok buf (net e) count (by omega) (by omega)
    obtain ⟨o1, hrun, h1, h2⟩ := deliver_spec net L valid hnet rest
      (outer.set e (some (net e ++ buf.drop (net e).length)))
      (fun d count h => hrq d count (List.mem_cons_of_mem _ h))
      (by
        intro d hd
        rw [Arr4.get_set]
        by_cases hde : d = e
        · rw [if_pos hde]
          exact ⟨_, rfl, by omega⟩
        · rw [if_neg hde]
          exact hout d hd)
    refine ⟨o1, ?_, h1, ?_⟩
    · rw [deliver, hbuf]
      simp only
      rw [hr]
      exact hrun
    · intro d hd
      rw [h2 d hd, Arr4.get_set, if_neg]
      rintro rfl
      exact hd hv

/-- One `swap` on a workspace with buffers of the allocated sizes, when every
delivered message fits the edge length: it returns; `front` and `back` have
exchanged roles, the edge buffers of directions with a neighbour are present
with their length, and the slots of the other directions are unchanged. -/
theorem swap_spec {V : Type} (ws : Workspace V) (hS : ws.Sized)
    (net : Neighbour → List V) (hnet : ∀ d, ((net d).length : Int) ≤ ws.innerLength) :
    ∃ c ie oe, ws.swap net =
        .ok { ws with comm := c, innerEdge := ie, outerEdge := oe,
                      front := ws.back, back := ws.front } ∧
      c.innerLength = ws.comm.innerLength ∧ c.rq.length = 8 ∧
      c.nextId = 2 * (validCount ws.neigh : Int) ∧
      (∀ d, ws.neigh.get d ≠ N_INVALID →
        (∃ buf, ie.get d = some buf ∧ (buf.length : Int) = ws.innerLength) ∧
        (∃ buf, oe.get d = some buf ∧ (buf.length : Int) = ws.innerLength)) ∧
      (∀ d, ws.neigh.get d = N_INVALID →
        ie.get d = ws.innerEdge.get d ∧ oe.get d = ws.outerEdge.get d) := by
  obtain ⟨ie, hcopy, hie⟩ := copyInnerEdges_spec ws hS
  have hS1 : Workspace.Sized { ws with innerEdge := ie } :=
    { comm_len := hS.comm_len
      front_len := hS.front_len
      back_len := hS.back_len
      inner := fun d hd => by
        obtain ⟨buf, h1, h2, -⟩ := (hie d).1 hd
        exact ⟨buf, h1, h2⟩
      outer := hS.outer }
  obtain ⟨c1, hex, hl1, hi1, hn1, hm1⟩ :=
    exchangeAll_spec { ws with innerEdge := ie } hS1 Neighbour.all ws.comm.reset
      (by simp [Comms.reset, RQ_COUNT]) (by simp [Comms.reset])
      (by simp [Comms.reset, Neighbour.all])
  obtain ⟨oe, hdel, ho1, ho2⟩ :=
    deliver_spec net ws.innerLength (fun d => ws.neigh.get d ≠ N_INVALID) hnet c1.rq
      ws.outerEdge
      (by
        intro d count hmem
        rcases hm1 d count hmem with h | h
        · simp [Comms.reset] at h
        · exact ⟨h.1, by rw [h.2]; exact hS.comm_len⟩)
      hS.outer
  refine ⟨c1.wait, ie, oe, ?_, ?_, ?_, ?_, ?_, ?_⟩
  · unfold Workspace.swap
    rw [hcopy]
    change (exchangeAll _ _ _ >>= _) = _
    rw [hex]
    change (deliver _ _ _ >>= _) = _
    rw [hdel]
    rfl
  · exact hi1
  · simp [Comms.wait, hl1]
  · show c1.nextId = _
    rw [hn1]
    simp [Comms.reset, validCount]
  · intro d hd
    obtain ⟨buf, h1, h2, -⟩ := (hie d).1 hd
    exact ⟨⟨buf, h1, h2⟩, ho1 d hd⟩
  · intro d hd
    exact ⟨(hie d).2 hd, ho2 d (not_not.mpr hd)⟩

/-- C10: for a coordinate inside the tile buffer (`0 ≤ x, y < innerLength`) and
any value `v`, `set_elf x y v` followed by one `swap` returns a workspace in
which `get_elb x y` returns `v`: the buffer written before the swap is the one
read after it. -/
theorem write_swap_read {V : Type} (ws : Workspace V) (x y : Int) (v : V)
    (net : Neighbour → List V) (hS : ws.Sized)
    (hnet : ∀ d, ((net d).length : Int) ≤ ws.innerLength)
    (hx0 : 0 ≤ x) (hx : x < ws.innerLength) (hy0 : 0 ≤ y) (hy : y < ws.innerLength) :
    ∃ ws1 ws2, ws.set_elf x y v = .ok ws1 ∧ ws1.swap net = .ok ws2 ∧
      ws2.get_elb x y = .ok v ∧ ws2.back = ws1.front := by
  have hset := set_elf_in_tile ws x y v hS.front_len hx0 hx hy0 hy
  obtain ⟨i0, i1⟩ := cell_index_bounds ws.innerLength x y hx0 hx hy0 hy
  have hS1 : Workspace.Sized
      { ws with front := ws.front.set (x * ws.innerLength + y).toNat v } :=
    { comm_len := hS.comm_len
      front_len := by
        show (((ws.front.set _ v).length : Nat) : Int) = _
        rw [List.length_set]
        exact hS.front_len
      back_len := hS.back_len
      inner := hS.inner
      outer := hS.outer }
  obtain ⟨c, ie, oe, hswap, -⟩ := swap_spec _ hS1 net hnet
  refine ⟨_, _, hset, hswap, ?_, rfl⟩
  have e1 : ¬ x = -1 := by omega
  have e2 : ¬ y = -1 := by omega
  have e3 : ¬ x = ws.innerLength + 1 := by omega
  have e4 : ¬ y = ws.innerLength + 1 := by omega
  simp only [Workspace.get_elb, e1, e2, e3, e4, if_false]
  apply readAt_of_getElem? _ _ _ i0
  rw [List.getElem?_set, if_pos rfl, if_pos]
  have := hS.front_len
  omega

/-! ## Lemmas: the size invariant holds in every reachable state -/

theorem newArray_ok {α : Type} (n : Int) (junk : Nat → α) (h : 0 ≤ n) :
    newArray n junk = .ok ((List.range n.toNat).map junk) ∧
      (((List.range n.toNat).map junk).length : Int) = n := by
  constructor
  · unfold newArray
    rw [if_pos h]
  · simp only [List.length_map, List.length_range]
    omega

theorem allocEdge_spec {V : Type} (neigh : Arr4 Int) (L : Int) (junk : Neighbour → Nat → V)
    (h : 0 ≤ L) (d : Neighbour) :
    ∃ o, allocEdge neigh L junk d = .ok o ∧
      (neigh.get d ≠ N_INVALID → ∃ buf, o = some buf ∧ (buf.length : Int) = L) ∧
      (neigh.get d = N_INVALID → o = none) := by
  obtain ⟨h1, h2⟩ := newArray_ok L (junk d) h
  by_cases hn : neigh.get d = N_INVALID
  · refine ⟨none, ?_, fun h => absurd hn h, fun _ => rfl⟩
    unfold allocEdge
    rw [if_neg (not_not.mpr hn)]
  · refine ⟨some ((List.range L.toNat).map (junk d)), ?_, fun _ => ⟨_, rfl, h2⟩,
      fun h => absurd h hn⟩
    unfold allocEdge
    rw [if_pos hn, h1]
    rfl

theorem allocEdges_spec {V : Type} (neigh : Arr4 Int) (L : Int) (junk : Neighbour → Nat → V)
    (h : 0 ≤ L) :
    ∃ a, allocEdges neigh L junk = .ok a ∧
      ∀ d, (neigh.get d ≠ N_INVALID → ∃ buf, a.get d = some buf ∧ (buf.length : Int) = L) ∧
        (neigh.get d = N_INVALID → a.get d = none) := by
  obtain ⟨l, hl, pl⟩ := allocEdge_spec neigh L junk h .LEFT
  obtain ⟨t, ht, pt⟩ := allocEdge_spec neigh L junk h .TOP
  obtain ⟨r, hr, pr⟩ := allocEdge_spec neigh L junk h .RIGHT
  obtain ⟨b, hb, pb⟩ := allocEdge_spec neigh L junk h .BOTTOM
  refine ⟨{ left := l, top := t, right := r, bottom := b }, ?_, ?_⟩
  · unfold allocEdges
    rw [hl]
    change (allocEdge _ _ _ _ >>= _) = _
    rw [ht]
    change (allocEdge _ _ _ _ >>= _) = _
    rw [hr]
    change (allocEdge _ _ _ _ >>= _) = _
    rw [hb]
    rfl
  · intro d
    cases d
    · exact pl
    · exact pt
    · exact pr
    · exact pb

/-- The constructor, given a non-negative size and a channel constructed for the
same size (as in `main`), returns a workspace that satisfies the size
invariant; its edge buffers are absent where there is no neighbour. -/
theorem construct_sized {V : Type} (size : Int) (borderCond : V) (cm : ClusterManager)
    (junk : Junk V) (h : 0 ≤ size) :
    ∃ ws, Workspace.construct size borderCond cm (Comms.construct size) junk = .ok ws ∧
      ws.Sized ∧ ws.neigh = cm.getNeighbours ∧ ws.innerLength = size ∧
      ws.borderCond = borderCond ∧
      ∀ d, ws.neigh.get d = N_INVALID →
        ws.innerEdge.get d = none ∧ ws.outerEdge.get d = none := by
  obtain ⟨hf, hfl⟩ := newArray_ok (size * size) junk.front (mul_nonneg h h)
  obtain ⟨hb, hbl⟩ := newArray_ok (size * size) junk.back (mul_nonneg h h)
  obtain ⟨ie, hie, pie⟩ := allocEdges_spec cm.getNeighbours size junk.innerEdge h
  obtain ⟨oe, hoe, poe⟩ := allocEdges_spec cm.getNeighbours size junk.outerEdge h
  refine ⟨{ cm := cm, comm := Comms.construct size, neigh := cm.getNeighbours,
            innerLength := size, actualSize := size * size, borderCond := borderCond,
            innerEdge := ie, outerEdge := oe,
            front := (List.range (size * size).toNat).map junk.front,
            back := (List.range (size * size).toNat).map junk.back },
    ?_, ?_, rfl, rfl, rfl, fun d hd => ⟨(pie d).2 hd, (poe d).2 hd⟩⟩
  · unfold Workspace.construct
    simp only
    rw [hf]
    change (newArray _ _ >>= _) = _
    rw [hb]
    change (allocEdges _ _ _ >>= _) = _
    rw [hie]
    change (allocEdges _ _ _ >>= _) = _
    rw [hoe]
    rfl
  · exact
      { comm_len := rfl
        front_len := hfl
        back_len := hbl
        inner := fun d hd => (pie d).1 hd
        outer := fun d hd => (poe d).1 hd }

theorem set_elf_sized {V : Type} (ws ws1 : Workspace V) (x y : Int) (v : V)
    (hS : ws.Sized) (h : ws.set_elf x y v = .ok ws1) : ws1.Sized := by
  unfold Workspace.set_elf writeAt at h
  split at h
  · cases h
    exact
      { comm_len := hS.comm_len
        front_len := by
          show (((ws.front.set _ v).length : Nat) : Int) = _
          rw [List.length_set]
          exact hS.front_len
        back_len := hS.back_len
        inner := hS.inner
        outer := hS.outer }
  · cases h

theorem swap_sized {V : Type} (ws ws1 : Workspace V) (net : Neighbour → List V)
    (hS : ws.Sized) (hnet : ∀ d, ((net d).length : Int) ≤ ws.innerLength)
    (h : ws.swap net = .ok ws1) : ws1.Sized := by
  obtain ⟨c, ie, oe, hswap, hc, -, -, hv, -⟩ := swap_spec ws hS net hnet
  rw [hswap] at h
  cases h
  exact
    { comm_len := hc.trans hS.comm_len
      front_len := hS.back_len
      back_len := hS.front_len
      inner := fun d hd => (hv d hd).1
      outer := fun d hd => (hv d hd).2 }

/-! ## Example states -/

theorem main_soloTile : (main { N := 2 } 0 1 (0 : Int) sevens).result = .ok soloTile := rfl

theorem main_unitTile : (main { N := 1 } 0 1 (0 : Int) sevens).result = .ok unitTile := rfl

theorem main_tileA : (main { N := 2 } 0 4 (0 : Int) counting).result = .ok tileA := rfl

theorem main_tileB0 : (main { N := 2 } 1 4 (0 : Int) counting).result = .ok tileB0 := rfl

theorem soloTile_sized : soloTile.Sized :=
  { comm_len := rfl
    front_len := rfl
    back_len := rfl
    inner := fun d hd => by cases d <;> exact absurd rfl hd
    outer := fun d hd => by cases d <;> exact absurd rfl hd }

theorem tileA_sized : tileA.Sized :=
  { comm_len := rfl
    front_len := rfl
    back_len := rfl
    inner := fun d hd => by
      cases d
      · exact absurd rfl hd
      · exact absurd rfl hd
      · exact ⟨_, rfl, rfl⟩
      · exact ⟨_, rfl, rfl⟩
    outer := fun d hd => by
      cases d
      · exact absurd rfl hd
      · exact absurd rfl hd
      · exact ⟨_, rfl, rfl⟩
      · exact ⟨_, rfl, rfl⟩ }

theorem tileA_snapshot :
    tileA.copyInnerEdgesToBuffers =
      .ok { tileA with
            innerEdge := { left := none, top := none, right := some [3, 4],
                           bottom := some [1, 3] } } := rfl

theorem tileB_holds_snapshot :
    ∀ A1, tileA.copyInnerEdgesToBuffers = .ok A1 →
      tileB.outerEdge.get Neighbour.RIGHT.opposite = A1.innerEdge.get .RIGHT := by
  intro A1 h
  rw [tileA_snapshot] at h
  cases h
  rfl

/-! ## Instances and evaluations for the workspace properties -/

/-- Instance of `seam_consistency`: rank 0 and its RIGHT neighbour rank 1 in a run of four
processes with tile edge 2. -/
theorem seam_consistency_witness :
    tileA.Sized ∧ tileA.neigh.get .RIGHT ≠ N_INVALID ∧
      tileB.neigh.get Neighbour.RIGHT.opposite ≠ N_INVALID ∧
      tileB.innerLength = tileA.innerLength ∧
      ∃ A1 buf, tileA.copyInnerEdgesToBuffers = .ok A1 ∧
        tileB.outerEdge.get Neighbour.RIGHT.opposite = some buf ∧
        ∀ k : Int, 0 ≤ k → k < tileA.innerLength →
          k < buf.length ∧
          tileB.get_elb (codeVirtualCoord tileB.innerLength Neighbour.RIGHT.opposite k).1
              (codeVirtualCoord tileB.innerLength Neighbour.RIGHT.opposite k).2 =
            readAt buf k ∧
          ∃ v, readAt buf k = .ok v ∧
            readAt tileA.front (tileA.elAddress (edgeCell tileA.innerLength .RIGHT k).1
              (edgeCell tileA.innerLength .RIGHT k).2) = .ok v :=
  ⟨tileA_sized, by decide, by decide, rfl,
    seam_consistency tileA tileB .RIGHT tileA_sized (by decide) (by decide) rfl
      tileB_holds_snapshot⟩

/-- Instance of C9: a write at (1, 1) of the one-process tile. -/
theorem write_invisible_to_read_witness :
    (soloTile.front.length : Int) = soloTile.innerLength * soloTile.innerLength ∧
      (0 : Int) ≤ 1 ∧ (1 : Int) < soloTile.innerLength ∧
      ∃ ws1, soloTile.set_elf 1 1 5 = .ok ws1 ∧
        (∀ x1 y1 : Int, ws1.get_elb x1 y1 = soloTile.get_elb x1 y1) ∧
        ws1 = { soloTile with
                front := soloTile.front.set (1 * soloTile.innerLength + 1).toNat 5 } :=
  ⟨rfl, by decide, by decide,
    write_invisible_to_read soloTile 1 1 5 rfl (by decide) (by decide) (by decide)
      (by decide)⟩

/-- Instance of C10: rank 0 of four processes writes 5 at (1, 0) and
synchronises while its neighbours deliver edges of zeros. -/
theorem write_swap_read_witness :
    tileA.Sized ∧ (∀ _d : Neighbour, (([0, 0] : List Int).length : Int) ≤ tileA.innerLength) ∧
      (0 : Int) ≤ 1 ∧ (1 : Int) < tileA.innerLength ∧
      (0 : Int) ≤ 0 ∧ (0 : Int) < tileA.innerLength ∧
      ∃ ws1 ws2, tileA.set_elf 1 0 5 = .ok ws1 ∧ ws1.swap (fun _ => [0, 0]) = .ok ws2 ∧
        ws2.get_elb 1 0 = .ok 5 ∧ ws2.back = ws1.front :=
  ⟨tileA_sized, fun _ => by decide, by decide, by decide, by decide, by decide,
    write_swap_read tileA 1 0 5 (fun _ => [0, 0]) tileA_sized
      (fun _ => (by decide : (([0, 0] : List Int).length : Int) ≤ tileA.innerLength))
      (by decide) (by decide) (by decide) (by decide)⟩

/-- C5 (the code at a failing input): in the workspace of a one-process run,
where no direction has a neighbour and the boundary constant is 0, `get_elb` at
the documented low-side virtual coordinates (0, 1) for LEFT and (1, 0) for
BOTTOM returns the `back` cell found there (7, then 5 once 5 has been written
there and the buffers swapped), not the boundary constant; at the high-side
coordinates (3, 1) and (1, 3) it returns the boundary constant. -/
theorem low_side_virtual_read_returns_tile_cell :
    (main { N := 2 } 0 1 (0 : Int) sevens).result = .ok soloTile ∧
      soloTile.neigh.get .LEFT = N_INVALID ∧ soloTile.neigh.get .BOTTOM = N_INVALID ∧
      soloTile.borderCond = 0 ∧
      docVirtualCoord soloTile.innerLength .LEFT 1 = (0, 1) ∧
      docVirtualCoord soloTile.innerLength .BOTTOM 1 = (1, 0) ∧
      soloTile.get_elb 0 1 = .ok 7 ∧
      soloTile.get_elb 1 0 = .ok 7 ∧
      (∃ ws1 ws2, soloTile.set_elf 0 1 5 = .ok ws1 ∧ ws1.swap (fun _ => []) = .ok ws2 ∧
        ws2.get_elb 0 1 = .ok 5) ∧
      soloTile.get_elb 3 1 = .ok 0 ∧
      soloTile.get_elb 1 3 = .ok 0 :=
  ⟨rfl, rfl, rfl, rfl, rfl, rfl, rfl, rfl, ⟨_, _, rfl, rfl, rfl⟩, rfl, rfl⟩

/-- C7 (the code at a failing input): with tile edge length 2, `get_elb` at the
corners (0, 0), (0, 3) and (3, 0) returns a value (the `back` cell 0, and the
boundary constant twice); only at (3, 3) does it throw "corner access!". -/
theorem corner_read_returns_value :
    soloTile.innerLength = 2 ∧
      soloTile.get_elb 0 0 = .ok 7 ∧
      soloTile.get_elb 0 3 = .ok 0 ∧
      soloTile.get_elb 3 0 = .ok 0 ∧
      soloTile.get_elb 3 3 = .error (.runtimeError "corner access!") :=
  ⟨rfl, rfl, rfl, rfl, rfl⟩

/-- C8 (the code at a failing input): with tile edge length 1 the interior
coordinate (1, 1) has cell index 2, outside the one-element buffers, so
`set_elf` and `get_elb` address storage outside the tile; with edge length 2 the
same happens at (1, 2), (2, 1) and (2, 2). -/
theorem interior_index_outside_tile :
    (unitTile.front.length = 1 ∧ unitTile.innerLength = 1 ∧
      (1 : Int) * unitTile.innerLength + 1 = 2 ∧
      unitTile.set_elf 1 1 9 = .error .outOfBounds ∧
      unitTile.get_elb 1 1 = .error .outOfBounds) ∧
    (soloTile.front.length = 4 ∧ soloTile.innerLength = 2 ∧
      soloTile.set_elf 1 2 9 = .error .outOfBounds ∧
      soloTile.set_elf 2 1 9 = .error .outOfBounds ∧
      soloTile.set_elf 2 2 9 = .error .outOfBounds ∧
      soloTile.get_elb 2 2 = .error .outOfBounds) :=
  ⟨⟨rfl, rfl, rfl, rfl, rfl⟩, ⟨rfl, rfl, rfl, rfl, rfl, rfl⟩⟩

/-! ## Diagnostics of the constructor -/

/-- C15 (as amended): for every process count `p ≥ 1` that is not a perfect
square and for every rank, the constructor fails with "incorrect node count!"
and `main` ends with that exception before `Comms` and `Workspace` exist; the
diagnostic line naming the count is written by rank 0 only, and the other ranks
write nothing. -/
theorem diagnostic_only_on_rank_zero (p nodeId : Int) (hp : 1 ≤ p)
    (hsq : ¬ ∃ k : Int, k * k = p) :
    (ClusterManager.construct nodeId p).result =
        .error (.runtimeError "incorrect node count!") ∧
      (ClusterManager.construct nodeId p).log =
        (if nodeId = 0 then [Diag.badNodeCount nodeId p] else []) ∧
      ∀ (V : Type) (conf : Config) (zero : V) (junk : Junk V),
        (main conf nodeId p zero junk).result =
            .error (.runtimeError "incorrect node count!") ∧
          (main conf nodeId p zero junk).log =
            (if nodeId = 0 then [Diag.badNodeCount nodeId p] else []) := by
  have h := construct_not_square nodeId p hp hsq
  refine ⟨by rw [h], by rw [h], ?_⟩
  intro V conf zero junk
  unfold main
  rw [h]
  exact ⟨rfl, rfl⟩

/-- Instance of the amended C15: rank 0 of three processes reports the count 3. -/
theorem diagnostic_only_on_rank_zero_witness :
    (1 : Int) ≤ 3 ∧ (¬ ∃ k : Int, k * k = 3) ∧
      (ClusterManager.construct 0 3).result =
        .error (.runtimeError "incorrect node count!") ∧
      (ClusterManager.construct 0 3).log =
        (if (0 : Int) = 0 then [Diag.badNodeCount 0 3] else []) :=
  have hsq : ¬ ∃ k : Int, k * k = 3 := by
    rintro ⟨k, hk⟩
    have h1 : k < 2 := by nlinarith
    have h2 : -2 < k := by nlinarith
    interval_cases k <;> omega
  ⟨by decide, hsq, (diagnostic_only_on_rank_zero 3 0 (by decide) hsq).1,
    (diagnostic_only_on_rank_zero 3 0 (by decide) hsq).2.1⟩

/-- C15 as stated fails: with two processes the constructor of rank 1 fails but
writes no line at all, so no diagnostic names the count. -/
theorem no_diagnostic_on_rank_one :
    ¬ ((∃ tag : Int, Diag.badNodeCount tag 2 ∈ (ClusterManager.construct 1 2).log) ∧
        (ClusterManager.construct 1 2).result =
          .error (.runtimeError "incorrect node count!")) := by
  rintro ⟨⟨tag, h⟩, -⟩
  have hlog : (ClusterManager.construct 1 2).log = [] := rfl
  rw [hlog] at h
  cases h

/-! ## Reciprocity of the neighbour relation -/

theorem neighboursOf_square (p t : Int) (hp : 1 ≤ p) (hsq : ∃ k : Int, k * k = p) :
    neighboursOf t p = some (initNeighbours t (Nat.sqrt p.toNat : Nat)
      (t.tdiv (Nat.sqrt p.toNat : Nat)) (t.tmod (Nat.sqrt p.toNat : Nat))) := by
  unfold neighboursOf
  rw [construct_ok t p hp hsq]
  rfl

/-- Row and column of the rank `i * s + j`. -/
theorem pos_of (s i j t : Int) (hi0 : 0 ≤ i) (hj0 : 0 ≤ j) (hj : j < s)
    (ht : t = i * s + j) : t.tdiv s = i ∧ t.tmod s = j := by
  have hs0 : (0 : Int) ≤ s := by omega
  have ht0 : 0 ≤ t := by
    have : 0 ≤ i * s := mul_nonneg hi0 hs0
    omega
  obtain ⟨hq, hm⟩ := grid_of_pos s i j hj0 hj
  rw [Int.tdiv_eq_ediv ht0 hs0, Int.tmod_eq_emod ht0 hs0, ht]
  exact ⟨hq, hm⟩

/-- C17: for a perfect-square process count `p`, a rank `r` in `0..p-1` and a
direction `d`, if slot `d` of `r` holds a valid rank `s`, then the constructor
of `s` puts `r` (a valid rank) into the slot of the opposite direction; so
the process a send is addressed to has the sender as its neighbour on the
facing side and posts a receive for that direction. -/
theorem neighbour_reciprocity (p r : Int) (hp : 1 ≤ p) (hsq : ∃ k : Int, k * k = p)
    (h0 : 0 ≤ r) (hr : r < p) (d : Neighbour) :
    ∃ a, neighboursOf r p = some a ∧
      (a.get d ≠ N_INVALID →
        ∃ b, neighboursOf (a.get d) p = some b ∧ b.get d.opposite = r ∧
          b.get d.opposite ≠ N_INVALID) := by
  obtain ⟨hss, hs1⟩ := side_sq p hp hsq
  obtain ⟨hd, hm, g1, g2, g3, g4, hsum⟩ :=
    grid_pos (Nat.sqrt p.toNat : Nat) r hs1 h0 (by rw [hss]; exact hr)
  refine ⟨_, neighboursOf_square p r hp hsq, ?_⟩
  intro hv
  refine ⟨_, neighboursOf_square p _ hp hsq, ?_⟩
  cases d
  · -- LEFT
    simp only [initNeighbours, Arr4.get, N_INVALID, hd, hm, Neighbour.opposite] at hv ⊢
    by_cases hb : r % ((Nat.sqrt p.toNat : Nat) : Int) = 0
    · simp [hb] at hv
    · simp only [hb, if_false] at hv ⊢
      obtain ⟨e1, e2⟩ := pos_of (Nat.sqrt p.toNat : Nat) (r / (Nat.sqrt p.toNat : Nat))
        (r % (Nat.sqrt p.toNat : Nat) - 1) (r - 1) g1 (by omega) (by omega)
        (by linear_combination (-1 : Int) * hsum)
      rw [e2]
      have hne : ¬ r % ((Nat.sqrt p.toNat : Nat) : Int) - 1 =
          ((Nat.sqrt p.toNat : Nat) : Int) - 1 := by omega
      simp only [hne, if_false]
      constructor <;> omega
  · -- TOP
    simp only [initNeighbours, Arr4.get, N_INVALID, hd, hm, Neighbour.opposite] at hv ⊢
    by_cases ha : r / ((Nat.sqrt p.toNat : Nat) : Int) = 0
    · simp [ha] at hv
    · simp only [ha, if_false] at hv ⊢
      obtain ⟨e1, e2⟩ := pos_of (Nat.sqrt p.toNat : Nat) (r / (Nat.sqrt p.toNat : Nat) - 1)
        (r % (Nat.sqrt p.toNat : Nat)) (r - (Nat.sqrt p.toNat : Nat)) (by omega) g3 g4
        (by linear_combination (-1 : Int) * hsum)
      rw [e1]
      have hne : ¬ r / ((Nat.sqrt p.toNat : Nat) : Int) - 1 =
          ((Nat.sqrt p.toNat : Nat) : Int) - 1 := by omega
      simp only [hne, if_false]
      constructor <;> omega
  · -- RIGHT
    simp only [initNeighbours, Arr4.get, N_INVALID, hd, hm, Neighbour.opposite] at hv ⊢
    by_cases hb : r % ((Nat.sqrt p.toNat : Nat) : Int) = (Nat.sqrt p.toNat : Nat) - 1
    · simp [hb] at hv
    · simp only [hb, if_false] at hv ⊢
      obtain ⟨e1, e2⟩ := pos_of (Nat.sqrt p.toNat : Nat) (r / (Nat.sqrt p.toNat : Nat))
        (r % (Nat.sqrt p.toNat : Nat) + 1) (r + 1) g1 (by omega) (by omega)
        (by linear_combination (-1 : Int) * hsum)
      rw [e2]
      have hne : ¬ r % ((Nat.sqrt p.toNat : Nat) : Int) + 1 = 0 := by omega
      simp only [hne, if_false]
      constructor <;> omega
  · -- BOTTOM
    simp only [initNeighbours, Arr4.get, N_INVALID, hd, hm, Neighbour.opposite] at hv ⊢
    by_cases ha : r / ((Nat.sqrt p.toNat : Nat) : Int) = (Nat.sqrt p.toNat : Nat) - 1
    · simp [ha] at hv
    · simp only [ha, if_false] at hv ⊢
      obtain ⟨e1, e2⟩ := pos_of (Nat.sqrt p.toNat : Nat) (r / (Nat.sqrt p.toNat : Nat) + 1)
        (r % (Nat.sqrt p.toNat : Nat)) (r + (Nat.sqrt p.toNat : Nat)) (by omega) g3 g4
        (by linear_combination (-1 : Int) * hsum)
      rw [e1]
      have hne : ¬ r / ((Nat.sqrt p.toNat : Nat) : Int) + 1 = 0 := by omega
      simp only [hne, if_false]
      constructor <;> omega

/-- Instance of C17 at nine processes: rank 4 and its BOTTOM neighbour. -/
theorem neighbour_reciprocity_witness :
    (1 : Int) ≤ 9 ∧ (∃ k : Int, k * k = 9) ∧ (0 : Int) ≤ 4 ∧ (4 : Int) < 9 ∧
      ∃ a, neighboursOf 4 9 = some a ∧
        (a.get .BOTTOM ≠ N_INVALID →
          ∃ b, neighboursOf (a.get .BOTTOM) 9 = some b ∧
            b.get Neighbour.BOTTOM.opposite = 4 ∧
            b.get Neighbour.BOTTOM.opposite ≠ N_INVALID) :=
  ⟨by decide, ⟨3, by decide⟩, by decide, by decide,
    neighbour_reciprocity 9 4 (by decide) ⟨3, by decide⟩ (by decide) (by decide) .BOTTOM⟩

/-! ## Lemmas: what a call that returned has done -/

theorem allocEdge_inv {V : Type} (neigh : Arr4 Int) (L : Int) (junk : Neighbour → Nat → V)
    (d : Neighbour) (o : Option (List V)) (h : allocEdge neigh L junk d = .ok o) :
    edgeLen o = (if neigh.get d ≠ N_INVALID then some L else none) := by
  unfold allocEdge at h
  by_cases hn : neigh.get d = N_INVALID
  · rw [if_neg (not_not.mpr hn)] at h
    cases h
    rw [if_neg (not_not.mpr hn)]
    rfl
  · rw [if_pos hn] at h
    rw [if_pos hn]
    unfold newArray at h
    by_cases hL : 0 ≤ L
    · rw [if_pos hL] at h
      cases h
      simp only [edgeLen, Option.map_some', List.length_map, List.length_range]
      congr 1
      omega
    · rw [if_neg hL] at h
      cases h

theorem allocEdges_inv {V : Type} (neigh : Arr4 Int) (L : Int) (junk : Neighbour → Nat → V)
    (a : Arr4 (Option (List V))) (h : allocEdges neigh L junk = .ok a) :
    ∀ d, edgeLen (a.get d) = (if neigh.get d ≠ N_INVALID then some L else none) := by
  unfold allocEdges at h
  cases hl : allocEdge neigh L junk .LEFT with
  | error e => rw [hl] at h; cases h
  | ok l =>
    cases ht : allocEdge neigh L junk .TOP with
    | error e => rw [hl, ht] at h; cases h
    | ok t =>
      cases hr : allocEdge neigh L junk .RIGHT with
      | error e => rw [hl, ht, hr] at h; cases h
      | ok r =>
        cases hb : allocEdge neigh L junk .BOTTOM with
        | error e => rw [hl, ht, hr, hb] at h; cases h
        | ok b =>
          rw [hl, ht, hr, hb] at h
          cases h
          intro d
          cases d
          · exact allocEdge_inv neigh L junk _ _ hl
          · exact allocEdge_inv neigh L junk _ _ ht
          · exact allocEdge_inv neigh L junk _ _ hr
          · exact allocEdge_inv neigh L junk _ _ hb

theorem construct_edges {V : Type} (size : Int) (borderCond : V) (cm : ClusterManager)
    (comm : Comms V) (junk : Junk V) (ws : Workspace V)
    (h : Workspace.construct size borderCond cm comm junk = .ok ws) :
    ws.EdgesMatchNeighbours := by
  unfold Workspace.construct at h
  simp only at h
  cases hf : newArray (size * size) junk.front with
  | error e => rw [hf] at h; cases h
  | ok f =>
    cases hb : newArray (size * size) junk.back with
    | error e => rw [hf, hb] at h; cases h
    | ok b =>
      cases hi : allocEdges cm.getNeighbours size junk.innerEdge with
      | error e => rw [hf, hb, hi] at h; cases h
      | ok ie =>
        cases ho : allocEdges cm.getNeighbours size junk.outerEdge with
        | error e => rw [hf, hb, hi, ho] at h; cases h
        | ok oe =>
          rw [hf, hb, hi, ho] at h
          cases h
          intro d
          exact ⟨allocEdges_inv _ _ _ _ hi d, allocEdges_inv _ _ _ _ ho d⟩

theorem set_elf_inv {V : Type} (ws ws1 : Workspace V) (x y : Int) (v : V)
    (h : ws.set_elf x y v = .ok ws1) :
    ws1 = { ws with front := ws.front.set (x * ws.innerLength + y).toNat v } := by
  unfold Workspace.set_elf writeAt at h
  split at h
  · cases h
    rfl
  · cases h

theorem copyLoop_len {V : Type} (base : List V) (addr : Int → Int) :
    ∀ (is : List Int) (dst dst1 : Option (List V)),
      copyLoop base addr is dst = .ok dst1 → edgeLen dst1 = edgeLen dst
  | [], dst, dst1, h => by
    rw [copyLoop] at h
    cases h
    rfl
  | _ :: _, none, dst1, h => by
    rw [copyLoop] at h
    cases h
  | i :: rest, some buf, dst1, h => by
    rw [copyLoop] at h
    cases hr : readAt base (addr i) with
    | error e => rw [hr] at h; cases h
    | ok v =>
      rw [hr] at h
      change (writeAt buf i v >>= _) = _ at h
      unfold writeAt at h
      split at h
      · have := copyLoop_len base addr rest _ _ h
        rw [this]
        simp [edgeLen]
      · cases h

theorem LOOP_inv {V : Type} (ws ws1 : Workspace V) (EDGE : Neighbour) (X Y : Int → Int)
    (BUFF : List V) (h : ws.LOOP EDGE X Y BUFF = .ok ws1) :
    ∃ ie, ws1 = { ws with innerEdge := ie } ∧
      ∀ d, edgeLen (ie.get d) = edgeLen (ws.innerEdge.get d) := by
  unfold Workspace.LOOP at h
  split at h
  · cases hc : copyLoop BUFF (fun i => ws.elAddress (X i) (Y i))
        (loopIndices ws.innerLength) (ws.innerEdge.get EDGE) with
    | error e => rw [hc] at h; cases h
    | ok dst =>
      rw [hc] at h
      cases h
      refine ⟨_, rfl, ?_⟩
      intro d
      rw [Arr4.get_set]
      split
      · rename_i hde
        rw [hde]
        exact copyLoop_len _ _ _ _ _ hc
      · rfl
  · cases h
    exact ⟨ws.innerEdge, rfl, fun _ => rfl⟩

theorem copyInnerEdges_inv {V : Type} (ws ws1 : Workspace V)
    (h : ws.copyInnerEdgesToBuffers = .ok ws1) :
    ∃ ie, ws1 = { ws with innerEdge := ie } ∧
      ∀ d, edgeLen (ie.get d) = edgeLen (ws.innerEdge.get d) := by
  unfold Workspace.copyInnerEdgesToBuffers at h
  cases h1 : ws.LOOP .TOP (fun i => i) (fun _ => ws.innerLength - 1) ws.front with
  | error e => rw [h1] at h; cases h
  | ok w1 =>
    rw [h1] at h
    obtain ⟨ie1, rfl, l1⟩ := LOOP_inv _ _ _ _ _ _ h1
    change (Workspace.LOOP _ _ _ _ _ >>= _) = _ at h
    cases h2 : Workspace.LOOP { ws with innerEdge := ie1 } .BOTTOM (fun i => i)
        (fun _ => 0) ws.front with
    | error e => rw [h2] at h; cases h
    | ok w2 =>
      rw [h2] at h
      obtain ⟨ie2, rfl, l2⟩ := LOOP_inv _ _ _ _ _ _ h2
      change (Workspace.LOOP _ _ _ _ _ >>= _) = _ at h
      cases h3 : Workspace.LOOP { ws with innerEdge := ie2 } .LEFT (fun _ => 0)
          (fun i => i) ws.front with
      | error e => rw [h3] at h; cases h
      | ok w3 =>
        rw [h3] at h
        obtain ⟨ie3, rfl, l3⟩ := LOOP_inv _ _ _ _ _ _ h3
        obtain ⟨ie4, rfl, l4⟩ := LOOP_inv _ _ _ _ _ _ h
        exact ⟨ie4, rfl, fun d => ((l4 d).trans (l3 d)).trans ((l2 d).trans (l1 d))⟩

theorem deliver_len {V : Type} (net : Neighbour → List V) :
    ∀ (rq : List (Request V)) (outer outer1 : Arr4 (Option (List V))),
      deliver net rq outer = .ok outer1 →
      ∀ d, edgeLen (outer1.get d) = edgeLen (outer.get d)
  | [], outer, outer1, h => by
    rw [deliver] at h
    cases h
    exact fun _ => rfl
  | Request.null :: rest, outer, outer1, h => by
    rw [deliver] at h
    · exact deliver_len net rest _ _ h
    · intro d count hh
      cases hh
  | Request.isend _ _ _ _ :: rest, outer, outer1, h => by
    rw [deliver] at h
    · exact deliver_len net rest _ _ h
    · intro d count hh
      cases hh
  | Request.irecv e count :: rest, outer, outer1, h => by
    rw [deliver] at h
    cases hb : outer.get e with
    | none => rw [hb] at h; cases h
    | some buf =>
      rw [hb] at h
      simp only at h
      unfold recvInto at h
      split at h
      · split at h
        · rename_i hfit
          have := deliver_len net rest _ _ h
          intro d
          rw [this d, Arr4.get_set]
          split
          · rename_i hde
            rw [hde, hb]
            simp only [edgeLen, Option.map_some', List.length_append, List.length_drop]
            congr 1
            omega
          · rfl
        · cases h
      · cases h

/-- A `swap` that returned has exchanged `front` and `back`, kept the
neighbours, the edge length and the boundary constant, and kept the presence
and the length of every edge buffer. -/
theorem swap_inv {V : Type} (ws ws1 : Workspace V) (net : Neighbour → List V)
    (h : ws.swap net = .ok ws1) :
    ws1.neigh = ws.neigh ∧ ws1.innerLength = ws.innerLength ∧
      ws1.borderCond = ws.borderCond ∧ ws1.front = ws.back ∧ ws1.back = ws.front ∧
      ∀ d, edgeLen (ws1.innerEdge.get d) = edgeLen (ws.innerEdge.get d) ∧
        edgeLen (ws1.outerEdge.get d) = edgeLen (ws.outerEdge.get d) := by
  unfold Workspace.swap at h
  cases hc : ws.copyInnerEdgesToBuffers with
  | error e => rw [hc] at h; cases h
  | ok w1 =>
    rw [hc] at h
    obtain ⟨ie, rfl, li⟩ := copyInnerEdges_inv _ _ hc
    change (exchangeAll _ _ _ >>= _) = _ at h
    cases hx : exchangeAll { ws with innerEdge := ie } Neighbour.all
        (Comms.reset ws.comm) with
    | error e => rw [hx] at h; cases h
    | ok c =>
      rw [hx] at h
      change (deliver _ _ _ >>= _) = _ at h
      cases hd : deliver net c.rq ws.outerEdge with
      | error e => rw [hd] at h; cases h
      | ok oe =>
        rw [hd] at h
        cases h
        exact ⟨rfl, rfl, rfl, rfl, rfl, fun d => ⟨li d, deliver_len net _ _ _ hd d⟩⟩

theorem reachable_edges {V : Type} (ws : Workspace V) (h : ws.Reachable) :
    ws.EdgesMatchNeighbours := by
  induction h with
  | construct size borderCond cm comm junk ws hc =>
    exact construct_edges size borderCond cm comm junk ws hc
  | set_elf ws ws1 x y v _ hs ih =>
    rw [set_elf_inv ws ws1 x y v hs]
    exact ih
  | swap ws ws1 net _ hs ih =>
    obtain ⟨hn, hl, -, -, -, he⟩ := swap_inv ws ws1 net hs
    intro d
    unfold Workspace.EdgesMatchNeighbours at ih
    rw [(he d).1, (he d).2, hn, hl]
    exact ih d

theorem edgeLen_eq_some {V : Type} (p : Option (List V)) (L : Int)
    (h : edgeLen p = some L) : ∃ buf, p = some buf ∧ (buf.length : Int) = L := by
  cases p with
  | none => cases h
  | some buf =>
    refine ⟨buf, rfl, ?_⟩
    simpa [edgeLen] using h

theorem edgeLen_eq_none {V : Type} (p : Option (List V)) (h : edgeLen p = none) :
    p = none := by
  cases p with
  | none => rfl
  | some buf => cases h

/-- C12: in every state of a workspace reachable from its construction by
`set_elf` and `swap` calls, and for each direction `d`: if `neigh[d]` is a valid
rank then `innerEdge[d]` and `outerEdge[d]` are both buffers of length
`innerLength`, and if `neigh[d]` is the sentinel then both are null. -/
theorem edges_present_iff_neighbour {V : Type} (ws : Workspace V) (h : ws.Reachable)
    (d : Neighbour) :
    (ws.neigh.get d ≠ N_INVALID →
      (∃ buf, ws.innerEdge.get d = some buf ∧ (buf.length : Int) = ws.innerLength) ∧
      (∃ buf, ws.outerEdge.get d = some buf ∧ (buf.length : Int) = ws.innerLength)) ∧
    (ws.neigh.get d = N_INVALID →
      ws.innerEdge.get d = none ∧ ws.outerEdge.get d = none) := by
  obtain ⟨hi, ho⟩ := reachable_edges ws h d
  constructor
  · intro hv
    rw [if_pos hv] at hi ho
    exact ⟨edgeLen_eq_some _ _ hi, edgeLen_eq_some _ _ ho⟩
  · intro hv
    rw [if_neg (not_not.mpr hv)] at hi ho
    exact ⟨edgeLen_eq_none _ hi, edgeLen_eq_none _ ho⟩

theorem tileA_reachable : tileA.Reachable :=
  Workspace.Reachable.construct 2 0 tileA.cm (Comms.construct 2) counting tileA rfl

/-- Instance of C12: rank 0 of four processes after a write and a `swap`, in
the direction RIGHT, where it has a neighbour. -/
theorem edges_present_iff_neighbour_witness :
    ∃ ws1 ws2, tileA.set_elf 1 0 5 = .ok ws1 ∧ ws1.swap (fun _ => [0, 0]) = .ok ws2 ∧
      ws2.Reachable ∧
      (ws2.neigh.get .RIGHT ≠ N_INVALID →
        (∃ buf, ws2.innerEdge.get .RIGHT = some buf ∧
          (buf.length : Int) = ws2.innerLength) ∧
        (∃ buf, ws2.outerEdge.get .RIGHT = some buf ∧
          (buf.length : Int) = ws2.innerLength)) ∧
      (ws2.neigh.get .RIGHT = N_INVALID →
        ws2.innerEdge.get .RIGHT = none ∧ ws2.outerEdge.get .RIGHT = none) :=
  have hr : Workspace.Reachable
      { tileA with
        comm := { innerLength := 2,
                  rq := [Request.null, Request.null, Request.null, Request.null,
                         Request.null, Request.null, Request.null, Request.null],
                  nextId := 4 }
        innerEdge := { left := none, top := none, right := some [5, 4],
                       bottom := some [1, 5] }
        outerEdge := { left := none, top := none, right := some [0, 0],
                       bottom := some [0, 0] }
        front := [10, 11, 12, 13]
        back := [1, 2, 5, 4] } :=
    Workspace.Reachable.swap _ _ (fun _ => [0, 0])
      (Workspace.Reachable.set_elf tileA _ 1 0 5 tileA_reachable rfl) rfl
  ⟨_, _, rfl, rfl, hr, edges_present_iff_neighbour _ hr .RIGHT⟩

/-! ## Two consecutive swaps -/

/-- C18: `swap` exchanges the roles of the two tile buffers without copying or
clearing cells.  On a workspace with the allocated buffer sizes, and with
messages that fit, one `swap` returns with the new `back` equal to the old
`front` and the new `front` equal to the old `back`; a second `swap` returns
with both buffers as they were, so `get_elb` gives what it gave before the two
calls at every coordinate that is not a virtual one (neither component is
`-1` or `innerLength+1`), in particular at every coordinate inside the tile. -/
theorem swap_twice_restores_read {V : Type} (ws : Workspace V)
    (net1 net2 : Neighbour → List V) (hS : ws.Sized)
    (hnet1 : ∀ d, ((net1 d).length : Int) ≤ ws.innerLength)
    (hnet2 : ∀ d, ((net2 d).length : Int) ≤ ws.innerLength) :
    ∃ ws1 ws2, ws.swap net1 = .ok ws1 ∧ ws1.swap net2 = .ok ws2 ∧
      ws1.back = ws.front ∧ ws1.front = ws.back ∧
      ws2.back = ws.back ∧ ws2.front = ws.front ∧
      ∀ x y : Int, x ≠ -1 → x ≠ ws.innerLength + 1 → y ≠ -1 → y ≠ ws.innerLength + 1 →
        ws2.get_elb x y = ws.get_elb x y := by
  obtain ⟨c1, ie1, oe1, hs1, -⟩ := swap_spec ws hS net1 hnet1
  have hS1 := swap_sized ws _ net1 hS hnet1 hs1
  obtain ⟨c2, ie2, oe2, hs2, -⟩ := swap_spec _ hS1 net2 hnet2
  refine ⟨_, _, hs1, hs2, rfl, rfl, rfl, rfl, ?_⟩
  intro x y hx1 hx2 hy1 hy2
  simp only [Workspace.get_elb, hx1, hx2, hy1, hy2, if_false]

/-- Instance of C18: rank 0 of four processes synchronises twice. -/
theorem swap_twice_restores_read_witness :
    tileA.Sized ∧
      (∀ _d : Neighbour, (([0, 0] : List Int).length : Int) ≤ tileA.innerLength) ∧
      (∀ _d : Neighbour, (([8, 9] : List Int).length : Int) ≤ tileA.innerLength) ∧
      ∃ ws1 ws2, tileA.swap (fun _ => [0, 0]) = .ok ws1 ∧
        ws1.swap (fun _ => [8, 9]) = .ok ws2 ∧
        ws1.back = tileA.front ∧ ws1.front = tileA.back ∧
        ws2.back = tileA.back ∧ ws2.front = tileA.front ∧
        ∀ x y : Int, x ≠ -1 → x ≠ tileA.innerLength + 1 → y ≠ -1 →
          y ≠ tileA.innerLength + 1 → ws2.get_elb x y = tileA.get_elb x y :=
  ⟨tileA_sized, fun _ => by decide, fun _ => by decide,
    swap_twice_restores_read tileA (fun _ => [0, 0]) (fun _ => [8, 9]) tileA_sized
      (fun _ => (by decide : (([0, 0] : List Int).length : Int) ≤ tileA.innerLength))
      (fun _ => (by decide : (([8, 9] : List Int).length : Int) ≤ tileA.innerLength))⟩

/-! ## The snapshot and the documented coordinates -/

/-- C11 (the code at a failing input): on rank 0 of four processes with tile
edge length 2 and `front = [1, 2, 3, 4]`, after `set_elf(1, 1, 9)` the snapshot
step leaves `innerEdge[BOTTOM] = [1, 3]`, which does not hold the value written
at `(1, 1)`, and `innerEdge[RIGHT] = [3, 9]`, which does; the writes at the
documented positions `(2, 1)` and `(2, 2)` of the RIGHT line and `(1, 2)` of the
TOP line fall outside the buffer.  The slots of LEFT and TOP, which have no
neighbour, are not touched. -/
theorem snapshot_misses_documented_line :
    tileA.innerLength = 2 ∧ tileA.front = [1, 2, 3, 4] ∧
      (∃ ws1 ws2, tileA.set_elf 1 1 9 = .ok ws1 ∧
        ws1.copyInnerEdgesToBuffers = .ok ws2 ∧
        ws2.innerEdge.get .BOTTOM = some [1, 3] ∧
        ws2.innerEdge.get .RIGHT = some [3, 9] ∧
        ws2.innerEdge.get .LEFT = tileA.innerEdge.get .LEFT ∧
        ws2.innerEdge.get .TOP = tileA.innerEdge.get .TOP) ∧
      tileA.set_elf 2 1 9 = .error .outOfBounds ∧
      tileA.set_elf 2 2 9 = .error .outOfBounds ∧
      tileA.set_elf 1 2 9 = .error .outOfBounds :=
  ⟨rfl, rfl, ⟨_, _, rfl, rfl, rfl, rfl, rfl, rfl⟩, rfl, rfl, rfl⟩

/-! ## The sampling loop of `FileDumper` -/

theorem toSizeT_natCast (n : Nat) (h : n < 2 ^ 64) : toSizeT (n : Int) = n := by
  unfold toSizeT
  omega

theorem toCoord_small (n : Nat) (h : n < 2 ^ 63) : toCoord n = (n : Int) := by
  unfold toCoord
  rw [if_pos h]

theorem loopFrom_run (L S : Nat) (hL1 : 1 ≤ L) (hL : L < 2 ^ 63) (hS : S < 2 ^ 63) :
    ∀ (r k : Nat) (calls : List Int) (fuel : Nat),
      (∀ j, j < k + r → j * S < L) → L ≤ (k + r) * S → r + 1 ≤ fuel →
      loopFrom (L : Int) (S : Int) fuel (k * S) calls =
        some (calls ++ (List.range' k r).map (fun (j : Nat) => (j : Int) * (S : Int)) ++
          [(L : Int) - 1])
  | 0, k, calls, fuel, _, hge, hf => by
    obtain ⟨f, rfl⟩ : ∃ f, fuel = f + 1 := ⟨fuel - 1, by omega⟩
    have h1 : toSizeT (L : Int) = L := toSizeT_natCast L (by omega)
    have h2 : toSizeT ((L : Int) - 1) = L - 1 := by
      have : ((L : Int) - 1) = ((L - 1 : Nat) : Int) := by omega
      rw [this]
      exact toSizeT_natCast _ (by omega)
    have h3 : toCoord (L - 1) = (L : Int) - 1 := by
      rw [toCoord_small _ (by omega)]
      omega
    rw [loopFrom, h1, if_pos (by simpa using hge), h2, h3]
    simp
  | r + 1, k, calls, fuel, hlt, hge, hf => by
    obtain ⟨f, rfl⟩ : ∃ f, fuel = f + 1 := ⟨fuel - 1, by omega⟩
    have hk : k * S < L := hlt k (by omega)
    have h1 : toSizeT (L : Int) = L := toSizeT_natCast L (by omega)
    have h2 : toSizeT (S : Int) = S := toSizeT_natCast S (by omega)
    have h3 : (k * S + S) % 2 ^ 64 = (k + 1) * S := by
      rw [Nat.mod_eq_of_lt (by omega)]
      ring
    have h4 : toCoord (k * S) = (k : Int) * (S : Int) := by
      rw [toCoord_small _ (by omega)]
      push_cast
      rfl
    rw [loopFrom, h1, if_neg (by omega), h2, h3, h4]
    rw [loopFrom_run L S hL1 hL hS r (k + 1) _ f
      (fun j hj => hlt j (by omega)) (by rw [show k + 1 + r = k + (r + 1) by ring]; exact hge)
      (by omega)]
    simp [List.range'_succ]

/-- C19: for `1 ≤ limit` and `1 ≤ step` (both in the range of `Coord`),
`FileDumper::loop` ends, after `(limit-1)/step + 2` rounds: it calls `f` on
`0, step, 2*step, ...`, in increasing order, for every multiple of `step` below
`limit`, then once more on `limit-1`, which is its last call; every argument
lies in `0..limit-1`. -/
theorem fileDumper_loop_calls (limit step : Int) (hl1 : 1 ≤ limit)
    (hl : limit < 2 ^ 63) (hs1 : 1 ≤ step) (hs : step < 2 ^ 63) :
    ∃ calls : List Int,
      (∀ fuel, ((limit - 1) / step).toNat + 2 ≤ fuel →
        FileDumper.loop limit step fuel = some calls) ∧
      calls = (List.range (((limit - 1) / step).toNat + 1)).map
          (fun (j : Nat) => (j : Int) * step) ++ [limit - 1] ∧
      List.Pairwise (fun a b => a < b)
        ((List.range (((limit - 1) / step).toNat + 1)).map
          (fun (j : Nat) => (j : Int) * step)) ∧
      (∀ c ∈ calls, 0 ≤ c ∧ c < limit) ∧
      calls.getLast? = some (limit - 1) := by
  obtain ⟨L, rfl⟩ : ∃ L : Nat, limit = (L : Int) := ⟨limit.toNat, by omega⟩
  obtain ⟨S, rfl⟩ : ∃ S : Nat, step = (S : Int) := ⟨step.toNat, by omega⟩
  have hL1 : 1 ≤ L := by omega
  have hS1 : 1 ≤ S := by omega
  have hm : (((L : Int) - 1) / (S : Int)).toNat = (L - 1) / S := by
    have e : ((L : Int) - 1) = ((L - 1 : Nat) : Int) := by omega
    rw [e, ← Int.natCast_div]
    exact Int.toNat_natCast _
  rw [hm]
  have hdm := Nat.div_add_mod (L - 1) S
  have hmod := Nat.mod_lt (L - 1) (by omega : S > 0)
  have hle : ∀ j, j < (L - 1) / S + 1 → j * S ≤ (L - 1) / S * S := fun j hj =>
    Nat.mul_le_mul_right S (by omega)
  have hq : (L - 1) / S * S = S * ((L - 1) / S) := Nat.mul_comm _ _
  refine ⟨_, ?_, rfl, ?_, ?_, ?_⟩
  · intro fuel hf
    unfold FileDumper.loop
    have h := loopFrom_run L S hL1 (by omega) (by omega) ((L - 1) / S + 1) 0 [] fuel
      (fun j hj => by
        have := hle j (by omega)
        omega)
      (by
        have e : (0 + ((L - 1) / S + 1)) * S = (L - 1) / S * S + S := by ring
        omega)
      (by omega)
    rw [Nat.zero_mul] at h
    rw [h, List.range_eq_range']
    simp
  · refine List.Pairwise.map _ ?_ (List.pairwise_lt_range _)
    intro a b hab
    have hS0 : (0 : Int) < (S : Int) := by omega
    have hab1 : (a : Int) < (b : Int) := by exact_mod_cast hab
    exact mul_lt_mul_of_pos_right hab1 hS0
  · intro c hc
    rw [List.mem_append] at hc
    rcases hc with hc | hc
    · obtain ⟨j, hj, rfl⟩ := List.mem_map.mp hc
      rw [List.mem_range] at hj
      have h1 := hle j hj
      have h2 : ((j * S : Nat) : Int) = (j : Int) * (S : Int) := by push_cast; rfl
      rw [← h2]
      omega
    · rw [List.mem_singleton] at hc
      omega
  · simp

/-- Instance of C19: `limit = 5` and `step = 2`. -/
theorem fileDumper_loop_calls_witness :
    (1 : Int) ≤ 5 ∧ (5 : Int) < 2 ^ 63 ∧ (1 : Int) ≤ 2 ∧ (2 : Int) < 2 ^ 63 ∧
      ∃ calls : List Int,
        (∀ fuel, (((5 : Int) - 1) / 2).toNat + 2 ≤ fuel →
          FileDumper.loop 5 2 fuel = some calls) ∧
        calls = (List.range ((((5 : Int) - 1) / 2).toNat + 1)).map
            (fun (j : Nat) => (j : Int) * 2) ++ [5 - 1] ∧
        List.Pairwise (fun a b => a < b)
          ((List.range ((((5 : Int) - 1) / 2).toNat + 1)).map
            (fun (j : Nat) => (j : Int) * 2)) ∧
        (∀ c ∈ calls, 0 ≤ c ∧ c < 5) ∧
        calls.getLast? = some (5 - 1) :=
  ⟨by decide, by decide, by decide, by decide,
    fileDumper_loop_calls 5 2 (by decide) (by decide) (by decide) (by decide)⟩

/-! ## The request array during one `swap` -/

theorem set_two_after {α : Type} (a x y : α) :
    ∀ (pre : List α) (k : Nat), 2 ≤ k →
      ((pre ++ List.replicate k a).set pre.length x).set (pre.length + 1) y =
        (pre ++ [x, y]) ++ List.replicate (k - 2) a
  | [], k, hk => by
    obtain ⟨j, rfl⟩ : ∃ j, k = j + 2 := ⟨k - 2, by omega⟩
    simp [List.replicate_succ]
  | p :: pre, k, hk => by
    have := set_two_after a x y pre k hk
    simpa using this

/-- The loop of `swap` over the directions `ds`, started with the request array
null from slot `nextId` on and room for two requests per direction: it returns,
having put one send and one receive per direction with a neighbour, in loop
order, into the slots from `nextId` on. -/
theorem exchangeAll_slots {V : Type} (ws : Workspace V) (hS : ws.Sized) :
    ∀ (ds : List Neighbour) (c : Comms V) (pre : List (Request V)) (k : Nat),
      c.rq = pre ++ List.replicate k Request.null → c.nextId = (pre.length : Int) →
      2 * ds.length ≤ k →
      ∃ c1, exchangeAll ws ds c = .ok c1 ∧ c1.innerLength = c.innerLength ∧
        c1.nextId = c.nextId + 2 * ((withNeighbour ws ds).length : Int) ∧
        c1.rq = pre ++ (withNeighbour ws ds).flatMap (exchangePair ws c.innerLength) ++
          List.replicate (k - 2 * (withNeighbour ws ds).length) Request.null
  | [], c, pre, k, hrq, _, _ => ⟨c, rfl, rfl, by simp [withNeighbour], by
      simpa [withNeighbour] using hrq⟩
  | i :: rest, c, pre, k, hrq, hn, hk => by
    have hk2 : 2 * rest.length + 2 ≤ k := by
      simp only [List.length_cons] at hk
      omega
    by_cases hv : ws.neigh.get i = N_INVALID
    · obtain ⟨c1, hrun, hi1, hn1, hr1⟩ :=
        exchangeAll_slots ws hS rest c pre k hrq hn (by omega)
      refine ⟨c1, ?_, hi1, ?_, ?_⟩
      · rw [exchangeAll]
        simp only [ne_eq, hv, not_true_eq_false, if_false]
        exact hrun
      · rw [hn1]
        simp [withNeighbour, List.filter_cons, hv]
      · rw [hr1]
        simp [withNeighbour, List.filter_cons, hv]
    · obtain ⟨ib, hib, -⟩ := hS.inner i hv
      obtain ⟨ob, hob, -⟩ := hS.outer i hv
      have hlen : c.rq.length = pre.length + k := by
        rw [hrq]
        simp
      have hex : c.exchange (ws.neigh.get i) (some ib) (some i) =
          .ok { c with
                rq := (pre ++ exchangePair ws c.innerLength i) ++
                  List.replicate (k - 2) Request.null
                nextId := c.nextId + 2 } := by
        unfold Comms.exchange
        simp only
        rw [writeAt_ok _ _ _ (by omega) (by omega)]
        change (writeAt _ _ _ >>= _) = _
        rw [writeAt_ok _ _ _ (by omega) (by simp only [List.length_set]; omega)]
        have e1 : c.nextId.toNat = pre.length := by omega
        have e2 : (c.nextId + 1).toNat = pre.length + 1 := by omega
        rw [e1, e2, hrq, set_two_after _ _ _ pre k (by omega)]
        simp [exchangePair, hib]
      obtain ⟨c1, hrun, hi1, hn1, hr1⟩ :=
        exchangeAll_slots ws hS rest
          { c with
            rq := (pre ++ exchangePair ws c.innerLength i) ++
              List.replicate (k - 2) Request.null
            nextId := c.nextId + 2 }
          (pre ++ exchangePair ws c.innerLength i) (k - 2) rfl
          (by
            show c.nextId + 2 = _
            simp [exchangePair]
            omega)
          (by omega)
      refine ⟨c1, ?_, hi1, ?_, ?_⟩
      · rw [exchangeAll]
        simp only [ne_eq, hv, not_false_eq_true, if_true, hib, hob, Option.map_some']
        rw [hex]
        exact hrun
      · rw [hn1]
        simp only [withNeighbour, List.filter_cons, ne_eq, hv, not_false_eq_true,
          decide_True, if_true, List.length_cons]
        push_cast
        ring
      · rw [hr1]
        simp only [withNeighbour, List.filter_cons, ne_eq, hv, not_false_eq_true,
          decide_True, if_true, List.length_cons, List.flatMap_cons, List.append_assoc]
        have e : ∀ n : Nat, k - 2 - 2 * n = k - 2 * (n + 1) := fun n => by omega
        rw [e]

theorem validCount_le_four (a : Arr4 Int) : validCount a ≤ 4 := by
  unfold validCount
  exact (List.length_filter_le _ _).trans (by simp [Neighbour.all])

/-- C16: in one `swap` of a workspace with the allocated buffer sizes, the
channel is reset and the loop then calls `exchange` once for each direction
that has a neighbour, in loop order: the loop returns without indexing the
request array outside its `RQ_COUNT = 8` slots, leaving in slots
`0 .. nextId-1` one send and one receive per such direction and null in the
others, with `nextId` twice the number of valid neighbours, at most 8; a `swap`
that returns leaves `nextId` at that value. -/
theorem exchange_slots_in_bounds {V : Type} (ws : Workspace V) (hS : ws.Sized) :
    ∃ ws1 c, ws.copyInnerEdgesToBuffers = .ok ws1 ∧
      exchangeAll ws1 Neighbour.all ws1.comm.reset = .ok c ∧
      c.nextId = 2 * (validCount ws.neigh : Int) ∧ c.nextId ≤ RQ_COUNT ∧
      (c.rq.length : Int) = RQ_COUNT ∧
      c.rq = (withNeighbour ws1 Neighbour.all).flatMap
          (exchangePair ws1 ws.comm.innerLength) ++
        List.replicate (8 - 2 * validCount ws.neigh) Request.null ∧
      ∀ (net : Neighbour → List V) (ws2 : Workspace V), ws.swap net = .ok ws2 →
        ws2.comm = c.wait ∧ ws2.comm.nextId = 2 * (validCount ws.neigh : Int) := by
  obtain ⟨ie, hcopy, hie⟩ := copyInnerEdges_spec ws hS
  have hS1 : Workspace.Sized { ws with innerEdge := ie } :=
    { comm_len := hS.comm_len
      front_len := hS.front_len
      back_len := hS.back_len
      inner := fun d hd => by
        obtain ⟨buf, h1, h2, -⟩ := (hie d).1 hd
        exact ⟨buf, h1, h2⟩
      outer := hS.outer }
  obtain ⟨c, hex, -, hn, hrq⟩ :=
    exchangeAll_slots { ws with innerEdge := ie } hS1 Neighbour.all ws.comm.reset [] 8
      (by simp [Comms.reset, RQ_COUNT]) (by simp [Comms.reset])
      (by simp [Neighbour.all])
  have h4 := validCount_le_four ws.neigh
  have hnext : c.nextId = 2 * (validCount ws.neigh : Int) := by
    rw [hn]
    simp [Comms.reset, validCount, withNeighbour]
  refine ⟨_, c, hcopy, hex, hnext, ?_, ?_, ?_, ?_⟩
  · rw [hnext]
    unfold RQ_COUNT
    omega
  · obtain ⟨c1, hex1, hl1, -⟩ :=
      exchangeAll_spec { ws with innerEdge := ie } hS1 Neighbour.all ws.comm.reset
        (by simp [Comms.reset, RQ_COUNT]) (by simp [Comms.reset])
        (by simp [Comms.reset, Neighbour.all])
    rw [hex] at hex1
    cases hex1
    rw [hl1]
    rfl
  · rw [hrq]
    simp [Comms.reset, validCount, withNeighbour]
  · intro net ws2 hswap
    unfold Workspace.swap at hswap
    rw [hcopy] at hswap
    change (exchangeAll _ _ _ >>= _) = _ at hswap
    rw [hex] at hswap
    change (deliver _ _ _ >>= _) = _ at hswap
    cases hd : deliver net c.rq ws.outerEdge with
    | error e => rw [hd] at hswap; cases hswap
    | ok oe =>
      rw [hd] at hswap
      cases hswap
      exact ⟨rfl, hnext⟩

/-- Instance of C16: rank 0 of four processes, with two neighbours. -/
theorem exchange_slots_in_bounds_witness :
    tileA.Sized ∧
      ∃ ws1 c, tileA.copyInnerEdgesToBuffers = .ok ws1 ∧
        exchangeAll ws1 Neighbour.all ws1.comm.reset = .ok c ∧
        c.nextId = 2 * (validCount tileA.neigh : Int) ∧ c.nextId ≤ RQ_COUNT ∧
        (c.rq.length : Int) = RQ_COUNT ∧
        c.rq = (withNeighbour ws1 Neighbour.all).flatMap
            (exchangePair ws1 tileA.comm.innerLength) ++
          List.replicate (8 - 2 * validCount tileA.neigh) Request.null ∧
        ∀ (net : Neighbour → List Int) (ws2 : Workspace Int), tileA.swap net = .ok ws2 →
          ws2.comm = c.wait ∧ ws2.comm.nextId = 2 * (validCount tileA.neigh : Int) :=
  ⟨tileA_sized, exchange_slots_in_bounds tileA tileA_sized⟩

/-! ## One exchange among several processes -/

theorem main_tileC :
    (main { N := 2 } 3 4 (0 : Int) countingFromFive).result = .ok tileC := rfl

/-- C13 (the code at a failing input): in a run of four processes with tile
edge length 2, rank 1 has rank 0 to its LEFT and rank 3 at its BOTTOM and posts
its two receives, both with `MPI_ANY_SOURCE`, in the order LEFT, BOTTOM.  Rank 0
sends it the edge `[3, 4]` and rank 3 the edge `[6, 8]`.  When the message of
rank 3 arrives first, `swap` of rank 1 returns with `outerEdge[LEFT] = [6, 8]`,
the edge of rank 3, and the edge of rank 0 in `outerEdge[BOTTOM]`; only when the
message of rank 0 arrives first does `outerEdge[LEFT]` hold `[3, 4]`. -/
theorem any_source_receive_takes_first_arrival :
    tileB0.neigh.get .LEFT = 0 ∧ tileB0.neigh.get .BOTTOM = 3 ∧
      tileA.outbox = .ok [(1, [3, 4]), (2, [1, 3])] ∧
      tileC.outbox = .ok [(2, [5, 6]), (1, [6, 8])] ∧
      tileB0.receives = .ok [.LEFT, .BOTTOM] ∧
      (∃ ws, tileB0.swap (matchArrivals [.LEFT, .BOTTOM] [[6, 8], [3, 4]]) = .ok ws ∧
        ws.outerEdge.get .LEFT = some [6, 8] ∧ ws.outerEdge.get .BOTTOM = some [3, 4]) ∧
      (∃ ws, tileB0.swap (matchArrivals [.LEFT, .BOTTOM] [[3, 4], [6, 8]]) = .ok ws ∧
        ws.outerEdge.get .LEFT = some [3, 4] ∧ ws.outerEdge.get .BOTTOM = some [6, 8]) :=
  ⟨rfl, rfl, rfl, rfl, rfl, ⟨_, rfl, rfl, rfl⟩, ⟨_, rfl, rfl, rfl⟩⟩

theorem deliver_congr {V : Type} (net net1 : Neighbour → List V) :
    ∀ (rq : List (Request V)) (outer : Arr4 (Option (List V))),
      (∀ d count, Request.irecv d count ∈ rq → net d = net1 d) →
      deliver net rq outer = deliver net1 rq outer
  | [], outer, _ => rfl
  | Request.null :: rest, outer, h => by
    rw [deliver, deliver]
    · exact deliver_congr net net1 rest outer
        (fun d count hm => h d count (List.mem_cons_of_mem _ hm))
    · intro d count hh
      cases hh
    · intro d count hh
      cases hh
  | Request.isend _ _ _ _ :: rest, outer, h => by
    rw [deliver, deliver]
    · exact deliver_congr net net1 rest outer
        (fun d count hm => h d count (List.mem_cons_of_mem _ hm))
    · intro d count hh
      cases hh
    · intro d count hh
      cases hh
  | Request.irecv e count :: rest, outer, h => by
    rw [deliver, deliver, h e count (List.mem_cons_self _ _)]
    cases outer.get e with
    | none => rfl
    | some buf =>
      simp only
      cases recvInto buf count (net1 e) with
      | error err => rfl
      | ok buf1 =>
        exact deliver_congr net net1 rest _
          (fun d count hm => h d count (List.mem_cons_of_mem _ hm))

/-- The result of `swap` depends on the delivered messages only through the
directions that have a neighbour, the only ones with a posted receive. -/
theorem swap_congr {V : Type} (ws : Workspace V) (hS : ws.Sized)
    (net net1 : Neighbour → List V)
    (h : ∀ d, ws.neigh.get d ≠ N_INVALID → net d = net1 d) :
    ws.swap net = ws.swap net1 := by
  obtain ⟨ie, hcopy, hie⟩ := copyInnerEdges_spec ws hS
  have hS1 : Workspace.Sized { ws with innerEdge := ie } :=
    { comm_len := hS.comm_len
      front_len := hS.front_len
      back_len := hS.back_len
      inner := fun d hd => by
        obtain ⟨buf, h1, h2, -⟩ := (hie d).1 hd
        exact ⟨buf, h1, h2⟩
      outer := hS.outer }
  obtain ⟨c1, hex, -, -, -, hm1⟩ :=
    exchangeAll_spec { ws with innerEdge := ie } hS1 Neighbour.all ws.comm.reset
      (by simp [Comms.reset, RQ_COUNT]) (by simp [Comms.reset])
      (by simp [Comms.reset, Neighbour.all])
  have hd : deliver net c1.rq ws.outerEdge = deliver net1 c1.rq ws.outerEdge :=
    deliver_congr net net1 _ _ (by
      intro d count hmem
      rcases hm1 d count hmem with hh | hh
      · simp [Comms.reset] at hh
      · exact h d hh.1)
  unfold Workspace.swap
  rw [hcopy]
  change (exchangeAll _ _ _ >>= _) = (exchangeAll _ _ _ >>= _)
  rw [hex]
  change (deliver _ _ _ >>= _) = (deliver _ _ _ >>= _)
  rw [hd]

theorem writeAll_sized {V : Type} (v : V) :
    ∀ (cs : List (Int × Int)) (ws ws1 : Workspace V), ws.Sized →
      writeAll v cs ws = .ok ws1 → ws1.Sized
  | [], ws, ws1, hS, h => by
    rw [writeAll] at h
    cases h
    exact hS
  | (x, y) :: rest, ws, ws1, hS, h => by
    rw [writeAll] at h
    cases hs : ws.set_elf x y v with
    | error e => rw [hs] at h; cases h
    | ok w =>
      rw [hs] at h
      exact writeAll_sized v rest w ws1 (set_elf_sized ws w x y v hS hs) h

theorem main_sized {V : Type} (conf : Config) (nodeId nodeCount : Int) (zero : V)
    (junk : Junk V) (ws : Workspace V) (hN : 0 ≤ conf.N)
    (h : (main conf nodeId nodeCount zero junk).result = .ok ws) : ws.Sized := by
  unfold main at h
  cases hc : (ClusterManager.construct nodeId nodeCount).result with
  | error e => simp only [hc] at h; cases h
  | ok cm =>
    simp only [hc] at h
    obtain ⟨ws1, h1, hS, -⟩ := construct_sized conf.N zero cm junk hN
    rw [h1] at h
    cases h
    exact hS

theorem seededTile_sized {V : Type} (zero one : V) (junk : Int → Junk V) (r : Int)
    (ws : Workspace V) (h : seededTile zero one junk r = .ok ws) : ws.Sized := by
  unfold seededTile at h
  cases hm : (main { N := 2 } r 4 zero (junk r)).result with
  | error e => simp only [hm] at h; cases h
  | ok w =>
    simp only [hm] at h
    exact writeAll_sized one _ w ws
      (main_sized _ r 4 zero (junk r) w (by decide) hm) h

theorem swap_of_agreeing {V : Type} (ws1 ws2 : Workspace V) (hS : ws1.Sized)
    (net net1 : Neighbour → List V)
    (h : ∀ d, ws1.neigh.get d ≠ N_INVALID → net d = net1 d)
    (h2 : ws1.swap net1 = .ok ws2) : ws1.swap net = .ok ws2 := by
  rw [swap_congr ws1 hS net net1 h]
  exact h2

theorem virtual_read_boundary {V : Type} (ws : Workspace V) (d : Neighbour) (k : Int)
    (hL : 0 ≤ ws.innerLength) (hd : ws.neigh.get d = N_INVALID) (hk1 : k ≠ -1)
    (hk2 : k ≠ ws.innerLength + 1) :
    ws.get_elb (codeVirtualCoord ws.innerLength d k).1
      (codeVirtualCoord ws.innerLength d k).2 = .ok ws.borderCond := by
  have e3 : ¬ ws.innerLength + 1 = -1 := by omega
  cases d <;> simp [Workspace.get_elb, codeVirtualCoord, hk1, hk2, e3, hd]

/-- The seeded scenario at the guards of `get_elb` (low side `-1`, high side
`innerLength+1`), which are not the documented virtual coordinates on the low
side: four processes, tile edge length 2, boundary constant `zero`; every
cell of every tile's `front` is written with `one` and the process of rank `r`
then performs one `swap`, in which each posted receive is matched with any one
of the messages addressed to `r`.  The `swap` returns; every element of
`outerEdge[d]` is `one` for each direction `d` with a neighbour, and `get_elb`
at the coordinate where it consults a direction without neighbour (`-1` or
`innerLength+1` on that axis, any non-corner position along the edge) returns
`zero`. -/
theorem uniform_seed_scenario {V : Type} (zero one : V) (junk : Int → Junk V)
    (net : Neighbour → List V) (r : Int) (hr0 : 0 ≤ r) (hr : r < 4)
    (hnet : ∀ a, neighboursOf r 4 = some a → ∀ d, a.get d ≠ N_INVALID →
      net d ∈ sentTo zero one junk r) :
    ∃ ws1 ws2, seededTile zero one junk r = .ok ws1 ∧ ws1.swap net = .ok ws2 ∧
      ws1.front = [one, one, one, one] ∧
      (∀ d, ws2.neigh.get d ≠ N_INVALID → ws2.outerEdge.get d = some [one, one]) ∧
      (∀ d, ws2.neigh.get d = N_INVALID → ∀ k : Int, k ≠ -1 →
        k ≠ ws2.innerLength + 1 →
        ws2.get_elb (codeVirtualCoord ws2.innerLength d k).1
          (codeVirtualCoord ws2.innerLength d k).2 = .ok zero) := by
  interval_cases r
  · have hsent : sentTo zero one junk 0 = [[one, one], [one, one]] := rfl
    have hnet1 : ∀ d, (⟨-1, -1, 1, 2⟩ : Arr4 Int).get d ≠ N_INVALID →
        net d = [one, one] := by
      intro d hd
      have := hnet _ rfl d hd
      rw [hsent] at this
      simpa using this
    refine ⟨_, _, (rfl : seededTile zero one junk 0 = .ok _),
      swap_of_agreeing _ _ (seededTile_sized zero one junk 0 _ rfl) net
        (fun _ => [one, one]) hnet1 rfl, rfl, ?_, ?_⟩
    · intro d hd
      cases d
      · exact absurd rfl hd
      · exact absurd rfl hd
      · rfl
      · rfl
    · intro d hd k hk1 hk2
      exact virtual_read_boundary _ d k (by decide : (0 : Int) ≤ 2) hd hk1 hk2
  · have hsent : sentTo zero one junk 1 = [[one, one], [one, one]] := rfl
    have hnet1 : ∀ d, (⟨0, -1, -1, 3⟩ : Arr4 Int).get d ≠ N_INVALID →
        net d = [one, one] := by
      intro d hd
      have := hnet _ rfl d hd
      rw [hsent] at this
      simpa using this
    refine ⟨_, _, (rfl : seededTile zero one junk 1 = .ok _),
      swap_of_agreeing _ _ (seededTile_sized zero one junk 1 _ rfl) net
        (fun _ => [one, one]) hnet1 rfl, rfl, ?_, ?_⟩
    · intro d hd
      cases d
      · rfl
      · exact absurd rfl hd
      · exact absurd rfl hd
      · rfl
    · intro d hd k hk1 hk2
      exact virtual_read_boundary _ d k (by decide : (0 : Int) ≤ 2) hd hk1 hk2
  · have hsent : sentTo zero one junk 2 = [[one, one], [one, one]] := rfl
    have hnet1 : ∀ d, (⟨-1, 0, 3, -1⟩ : Arr4 Int).get d ≠ N_INVALID →
        net d = [one, one] := by
      intro d hd
      have := hnet _ rfl d hd
      rw [hsent] at this
      simpa using this
    refine ⟨_, _, (rfl : seededTile zero one junk 2 = .ok _),
      swap_of_agreeing _ _ (seededTile_sized zero one junk 2 _ rfl) net
        (fun _ => [one, one]) hnet1 rfl, rfl, ?_, ?_⟩
    · intro d hd
      cases d
      · exact absurd rfl hd
      · rfl
      · rfl
      · exact absurd rfl hd
    · intro d hd k hk1 hk2
      exact virtual_read_boundary _ d k (by decide : (0 : Int) ≤ 2) hd hk1 hk2
  · have hsent : sentTo zero one junk 3 = [[one, one], [one, one]] := rfl
    have hnet1 : ∀ d, (⟨2, 1, -1, -1⟩ : Arr4 Int).get d ≠ N_INVALID →
        net d = [one, one] := by
      intro d hd
      have := hnet _ rfl d hd
      rw [hsent] at this
      simpa using this
    refine ⟨_, _, (rfl : seededTile zero one junk 3 = .ok _),
      swap_of_agreeing _ _ (seededTile_sized zero one junk 3 _ rfl) net
        (fun _ => [one, one]) hnet1 rfl, rfl, ?_, ?_⟩
    · intro d hd
      cases d
      · rfl
      · rfl
      · exact absurd rfl hd
      · exact absurd rfl hd
    · intro d hd k hk1 hk2
      exact virtual_read_boundary _ d k (by decide : (0 : Int) ≤ 2) hd hk1 hk2

/-- Instance of `uniform_seed_scenario`: rank 0, with the values 0 and 1 and every receive matched
with a message of ones. -/
theorem uniform_seed_scenario_witness :
    (0 : Int) ≤ 0 ∧ (0 : Int) < 4 ∧
      (∀ a, neighboursOf 0 4 = some a → ∀ d, a.get d ≠ N_INVALID →
        ([1, 1] : List Int) ∈ sentTo (0 : Int) 1 (fun _ => sevens) 0) ∧
      ∃ ws1 ws2, seededTile (0 : Int) 1 (fun _ => sevens) 0 = .ok ws1 ∧
        ws1.swap (fun _ => [1, 1]) = .ok ws2 ∧
        ws1.front = [1, 1, 1, 1] ∧
        (∀ d, ws2.neigh.get d ≠ N_INVALID → ws2.outerEdge.get d = some [1, 1]) ∧
        (∀ d, ws2.neigh.get d = N_INVALID → ∀ k : Int, k ≠ -1 →
          k ≠ ws2.innerLength + 1 →
          ws2.get_elb (codeVirtualCoord ws2.innerLength d k).1
            (codeVirtualCoord ws2.innerLength d k).2 = .ok 0) :=
  have hmem : ([1, 1] : List Int) ∈ sentTo (0 : Int) 1 (fun _ => sevens) 0 := by decide
  ⟨by decide, by decide, fun _ _ _ _ => hmem,
    uniform_seed_scenario (0 : Int) 1 (fun _ => sevens) (fun _ => [1, 1]) 0
      (by decide) (by decide) (fun _ _ _ _ => hmem)⟩

/-! ## The seam and the scenario at the documented virtual coordinates -/

/-- C6 (the code at a failing input): rank 0 (`tileA`) has rank 1 (`tileB`) as
its RIGHT neighbour; the snapshot step of rank 0 fills `innerEdge[RIGHT]` with
its `front` cells 3 and 4 of the edge facing rank 1, and the exchange has put
them into `outerEdge[LEFT]` of rank 1.  At the virtual coordinate of the LEFT
side, `(0, k)`, `get_elb` of rank 1 does not read `outerEdge[LEFT]`: it returns
the cells 10 and 11 of rank 1's own `back`, not 3 and 4.  Only at `x = -1` does
it read `outerEdge[LEFT]`.  Nor is the buffers' own indexing served on the
other side: one step past the last column, at `(2, k)`, `get_elb` of rank 0
reads outside `back`. -/
theorem seam_read_at_documented_coordinate :
    tileA.neigh.get .RIGHT = 1 ∧ tileB.neigh.get .LEFT = 0 ∧
      (∃ A1, tileA.copyInnerEdgesToBuffers = .ok A1 ∧
        A1.innerEdge.get .RIGHT = some [3, 4] ∧
        tileB.outerEdge.get .LEFT = A1.innerEdge.get .RIGHT) ∧
      readAt tileA.front (tileA.elAddress (edgeCell tileA.innerLength .RIGHT 0).1
        (edgeCell tileA.innerLength .RIGHT 0).2) = .ok 3 ∧
      readAt tileA.front (tileA.elAddress (edgeCell tileA.innerLength .RIGHT 1).1
        (edgeCell tileA.innerLength .RIGHT 1).2) = .ok 4 ∧
      docVirtualCoord tileB.innerLength .LEFT 0 = (0, 0) ∧
      docVirtualCoord tileB.innerLength .LEFT 1 = (0, 1) ∧
      tileB.back = [10, 11, 12, 13] ∧
      tileB.get_elb 0 0 = .ok 10 ∧
      tileB.get_elb 0 1 = .ok 11 ∧
      tileB.get_elb (-1) 0 = .ok 3 ∧
      tileB.get_elb (-1) 1 = .ok 4 ∧
      tileA.get_elb 2 0 = .error .outOfBounds ∧
      tileA.get_elb 2 1 = .error .outOfBounds :=
  ⟨rfl, rfl, ⟨_, rfl, rfl, rfl⟩, rfl, rfl, rfl, rfl, rfl, rfl, rfl, rfl, rfl, rfl, rfl⟩

/-- C14 (the code at a failing input): in the scenario of four processes with
tile edge length 2, boundary constant 0 and every cell seeded with 1, rank 0 has
no neighbour on its LEFT and TOP sides.  After its `swap`, with every receive
matched with a message of ones, `outerEdge[RIGHT]` and `outerEdge[BOTTOM]` hold
ones, and the reads at the high-side virtual coordinates `(1, 3)` and `(2, 3)`
of TOP return 0; but at the virtual coordinates `(0, 1)` and `(0, 2)` of the
LEFT side `get_elb` returns the tile's own cell, 1, not the boundary constant,
and only at `x = -1` does it return 0. -/
theorem seeded_boundary_read_at_documented_coordinate :
    ∃ ws1 ws2, seededTile (0 : Int) 1 (fun _ => sevens) 0 = .ok ws1 ∧
      ws1.swap (fun _ => [1, 1]) = .ok ws2 ∧
      ws1.front = [1, 1, 1, 1] ∧ ws2.borderCond = 0 ∧
      ws2.neigh.get .LEFT = N_INVALID ∧ ws2.neigh.get .TOP = N_INVALID ∧
      ws2.outerEdge.get .RIGHT = some [1, 1] ∧
      ws2.outerEdge.get .BOTTOM = some [1, 1] ∧
      docVirtualCoord ws2.innerLength .LEFT 1 = (0, 1) ∧
      docVirtualCoord ws2.innerLength .LEFT 2 = (0, 2) ∧
      docVirtualCoord ws2.innerLength .TOP 1 = (1, 3) ∧
      ws2.get_elb 0 1 = .ok 1 ∧
      ws2.get_elb 0 2 = .ok 1 ∧
      ws2.get_elb (-1) 1 = .ok 0 ∧
      ws2.get_elb 1 3 = .ok 0 ∧
      ws2.get_elb 2 3 = .ok 0 :=
  ⟨_, _, rfl, rfl, rfl, rfl, rfl, rfl, rfl, rfl, rfl, rfl, rfl, rfl, rfl, rfl, rfl, rfl⟩

end ArParallel
